import Mathlib

/-! Index health aggregation of the cluster-state collector

A shallow embedding of `collector/cluster_state.go` and
`collector/cluster_state_response.go`.

Modelling conventions

* A Go `string` is a Lean `String`.  The payload comes out of `encoding/json`,
  so it is valid UTF-8, and substring search on bytes and on code points agree.
* A Go `map[string]V` is a `GoMap V`: a list of entries whose keys are pairwise
  distinct.  The order of the list is the order in which a `range` loop happens
  to visit the map; statements quantify over every such order.
* An `interface{}` field filled by `encoding/json` is an `Iface`.
* A run-time panic (a failed single-value type assertion) is the result `none`.
* `IndexStateStatus.value` only ever holds the constants `0.0`, `1` and `2`; it
  is a `Nat`.
-/

namespace collector

/-! ## Go maps -/

/-- A Go map with string keys: entries with pairwise distinct keys, listed in
the order a `range` loop visits them. -/
structure GoMap (V : Type) where
  entries : List (String × V)
  nodup : (entries.map Prod.fst).Nodup
deriving DecidableEq

namespace GoMap

variable {V : Type}

/-- The literal `make(map[string]V)`. -/
def empty : GoMap V := ⟨[], List.nodup_nil⟩

/-- The builtin `len(m)`. -/
def len (m : GoMap V) : Nat := m.entries.length

/-- The keys of the map, in visiting order. -/
def keys (m : GoMap V) : List String := m.entries.map Prod.fst

/-- Lookup in a list of entries. -/
def getEntries : List (String × V) → String → Option V
  | [], _ => none
  | (k', v) :: rest, k => if k' = k then some v else getEntries rest k

/-- The two-valued index expression `v, ok := m[k]`. -/
def get (m : GoMap V) (k : String) : Option V := getEntries m.entries k

/-- Assignment in a list of entries: overwrite the entry of `k`, or add one. -/
def setEntries : List (String × V) → String → V → List (String × V)
  | [], k, v => [(k, v)]
  | (k', v') :: rest, k, v =>
    if k' = k then (k, v) :: rest else (k', v') :: setEntries rest k v

/-- The assignment `m[k] = v`. -/
def set (m : GoMap V) (k : String) (v : V) : GoMap V :=
  ⟨setEntries m.entries k v, by
    have key : ∀ (es : List (String × V)) (a : String),
        a ∈ (setEntries es k v).map Prod.fst → a ∈ es.map Prod.fst ∨ a = k := by
      intro es
      induction es with
      | nil => intro a h; simpa [setEntries] using h
      | cons e rest ih =>
        intro a h
        obtain ⟨k', v'⟩ := e
        by_cases hk : k' = k
        · subst hk
          simp only [setEntries, if_true, List.map_cons, List.mem_cons] at h ⊢
          tauto
        · simp only [setEntries, if_neg hk, List.map_cons, List.mem_cons] at h ⊢
          rcases h with h | h
          · exact Or.inl (Or.inl h)
          · rcases ih a h with h | h
            · exact Or.inl (Or.inr h)
            · exact Or.inr h
    have main : ∀ es : List (String × V), (es.map Prod.fst).Nodup →
        ((setEntries es k v).map Prod.fst).Nodup := by
      intro es
      induction es with
      | nil => intro _; simp [setEntries]
      | cons e rest ih =>
        intro h
        obtain ⟨k', v'⟩ := e
        rw [List.map_cons, List.nodup_cons] at h
        by_cases hk : k' = k
        · subst hk
          simp only [setEntries, if_true, List.map_cons, List.nodup_cons]
          exact h
        · simp only [setEntries, if_neg hk, List.map_cons, List.nodup_cons]
          refine ⟨fun hmem => ?_, ih h.2⟩
          rcases key rest k' hmem with h1 | h1
          · exact h.1 h1
          · exact hk h1
    exact main m.entries m.nodup⟩

end GoMap

/-! ## Library functions of package `strings` -/

/-- Substring search on code points: does `substr` start at some position of
`s`? -/
def containsChars : List Char → List Char → Bool
  | [], substr => substr.isPrefixOf []
  | c :: cs, substr => substr.isPrefixOf (c :: cs) || containsChars cs substr

/-- The function `strings.Contains(s, substr)`. -/
def strings.Contains (s substr : String) : Bool :=
  containsChars s.data substr.data

/-- The function `strings.Join(elems, sep)`. -/
def strings.Join : List String → String → String
  | [], _ => ""
  | [a], _ => a
  | a :: b :: rest, sep => a ++ sep ++ strings.Join (b :: rest) sep

/-! ## Constants (`cluster_state.go`, lines 21-31) -/

def READ : String := "read"
def WRITE : String := "write"
def METADATA_READ : String := "metadata_read"
def METADATA_WRITE : String := "metadata_write"
def TRUE : String := "true"
def FALSE : String := "false"
def RED : String := "red"
def YELLOW : String := "yellow"
def GREEN : String := "green"

/-! ## The decoded snapshot (`cluster_state_response.go`) -/

/-- What `encoding/json` stores in an `interface{}`: `nil` for an absent or
`null` value, otherwise a bool, a float64, a string, a slice or a map.  The
payload of numbers, arrays and objects is never inspected by the collector. -/
inductive Iface where
  | nil
  | bool (b : Bool)
  | number
  | str (s : String)
  | array
  | object
deriving DecidableEq, Repr

structure blocksDetail where
  Description : String
  Retryable : Bool
  Levels : List String
deriving DecidableEq

structure blocks where
  Global : GoMap blocksDetail
  Indices : GoMap (GoMap blocksDetail)
deriving DecidableEq

structure indexSettings where
  CreationDate : String
  NumberOfShards : String
  NumberOfReplicas : String
  Uuid : String
deriving DecidableEq

structure settings where
  Index : indexSettings
deriving DecidableEq

/-- The field `Properties` is never read by the collector and is left out. -/
structure mappings where
  Dynamic : Iface
deriving DecidableEq

/-- The fields `Aliases`, `PrimaryTerms` and `InSyncAllocations` are never read
by the collector and are left out. -/
structure indexDetail where
  State : String
  Settings : settings
  Mappings : GoMap mappings
deriving DecidableEq

/-- The fields `Templates`, `Repositories` and `IndexGraveyard` are never read
by the collector and are left out. -/
structure metadata where
  ClusterUuid : String
  Indices : GoMap indexDetail
deriving DecidableEq

/-- The fields `Shard` and `AllocationId` are never read by the collector and
are left out. -/
structure shardsDetail where
  State : String
  Primary : Bool
  Node : String
  RelocatingNode : String
  Index : String
deriving DecidableEq

structure shards where
  Shards : GoMap (List shardsDetail)
deriving DecidableEq

structure routingTable where
  Indices : GoMap shards
deriving DecidableEq

/-- The fields `CompressedSizeInBytes`, `Version`, `Nodes` and `RoutingNodes`
are never read by the collector and are left out. -/
structure clusterStateResponse where
  ClusterName : String
  ClusterUuid : String
  StateUuid : String
  MasterNode : String
  Blocks : blocks
  Metadata : metadata
  RoutingTable : routingTable
deriving DecidableEq

/-! ## The health record (`cluster_state.go`, lines 33-48) -/

structure IndexStateStatus where
  EsCluster : String
  Index : String
  Color : String
  State : String
  NumberOfShards : String
  NumberOfReplicas : String
  Uuid : String
  Dynamic : String
  CreationDate : String
  Read : String
  Write : String
  MetadataRead : String
  MetadataWrite : String
  value : Nat
deriving DecidableEq

/-! ## `ClusterState.Collect`: the aggregation (lines 183-277) -/

/-- Lines 186-195: the scan of one resource's type mappings, started with
`dynamic := "true"`.  The single-value assertion `mappings.Dynamic.(string)`
panics on a value that is neither `nil` nor a string. -/
def resolveDynamic : List (String × mappings) → Option String
  | [] => some "true"
  | (_, mp) :: rest =>
    match mp.Dynamic with
    | Iface.nil => resolveDynamic rest
    | Iface.str mapping => if mapping ≠ "" then some mapping else resolveDynamic rest
    | _ => none

/-- Lines 196-211: the record stored for one metadata entry.  The composite
literal names every field except `Color`, which therefore holds the zero value
of `string`. -/
def baseRecord (cluster index : String) (detail : indexDetail) (dynamic : String) :
    IndexStateStatus :=
  { EsCluster := cluster
    Index := index
    Color := ""
    State := detail.State
    CreationDate := detail.Settings.Index.CreationDate
    NumberOfReplicas := detail.Settings.Index.NumberOfReplicas
    NumberOfShards := detail.Settings.Index.NumberOfShards
    Uuid := detail.Settings.Index.Uuid
    Dynamic := dynamic
    Read := FALSE
    Write := FALSE
    MetadataRead := FALSE
    MetadataWrite := FALSE
    value := 0 }

/-- Lines 185-212: the loop over `Metadata.Indices`. -/
def baseConstruction (cluster : String) :
    List (String × indexDetail) → GoMap IndexStateStatus → Option (GoMap IndexStateStatus)
  | [], m => some m
  | (index, detail) :: rest, m =>
    match resolveDynamic detail.Mappings.entries with
    | none => none
    | some dynamic =>
      baseConstruction cluster rest (m.set index (baseRecord cluster index detail dynamic))

/-- Lines 224-227: all level strings of a resource's block entries appended. -/
def collectLevels : List (String × blocksDetail) → List String → List String
  | [], acc => acc
  | (_, detail) :: rest, acc => collectLevels rest (acc ++ detail.Levels)

/-- Lines 228-240: the four substring tests on the joined level strings. -/
def applyBlock (block : String) (st : IndexStateStatus) : IndexStateStatus :=
  let st := if strings.Contains block READ then { st with Read := TRUE } else st
  let st := if strings.Contains block WRITE then { st with Write := TRUE } else st
  let st := if strings.Contains block METADATA_WRITE then { st with MetadataWrite := TRUE } else st
  let st := if strings.Contains block METADATA_READ then { st with MetadataRead := TRUE } else st
  st

/-- Lines 217-241: the body of the loop over `Blocks.Indices`. -/
def blockStep (m : GoMap IndexStateStatus) (e : String × GoMap blocksDetail) :
    GoMap IndexStateStatus :=
  match m.get e.1 with
  | none => m
  | some indexStateStatus =>
    if e.2.len ≤ 0 then m
    else
      let blocks := collectLevels e.2.entries []
      let block := strings.Join blocks ","
      m.set e.1 (applyBlock block indexStateStatus)

/-- Lines 215-243: the block overlay. -/
def blockOverlay (b : blocks) (m : GoMap IndexStateStatus) : GoMap IndexStateStatus :=
  if b.Indices.len > 0 then b.Indices.entries.foldl blockStep m else m

/-- Lines 255-266: the inner loop over the copies of one shard.  The second
component tells whether `break stopFound` was taken. -/
def scanCopies (color : String) : List shardsDetail → String × Bool
  | [] => (color, false)
  | shardsDetail :: rest =>
    if color = RED then (color, true)
    else
      let color :=
        if shardsDetail.State = "UNASSIGNED" then
          (if shardsDetail.Primary then RED else YELLOW)
        else color
      scanCopies color rest

/-- Lines 253-267: the labelled loop over the shards of one resource. -/
def scanShards (color : String) : List (String × List shardsDetail) → String
  | [] => color
  | (_, shardsDetails) :: rest =>
    match scanCopies color shardsDetails with
    | (color, true) => color
    | (color, false) => scanShards color rest

/-- Lines 268-274: storing the colour and the value. -/
def applyColor (color : String) (st : IndexStateStatus) : IndexStateStatus :=
  let st := { st with Color := color }
  let st := if color = YELLOW then { st with value := 1 } else st
  let st := if color = RED then { st with value := 2 } else st
  st

/-- Lines 248-275: the body of the loop over `RoutingTable.Indices`. -/
def routingStep (m : GoMap IndexStateStatus) (e : String × shards) :
    GoMap IndexStateStatus :=
  let color := GREEN
  match m.get e.1 with
  | none => m
  | some indexStateStatus =>
    let color := scanShards color e.2.Shards.entries
    m.set e.1 (applyColor color indexStateStatus)

/-- Lines 246-277: the routing overlay. -/
def routingOverlay (r : routingTable) (m : GoMap IndexStateStatus) : GoMap IndexStateStatus :=
  if r.Indices.len > 0 then r.Indices.entries.foldl routingStep m else m

/-- Lines 183-277 of `ClusterState.Collect`: the mapping `indexStateStatusMap`
as it stands before emission, or `none` when building it panics. -/
def indexStateStatusMap (clusterStateResp : clusterStateResponse) :
    Option (GoMap IndexStateStatus) :=
  let cluster := clusterStateResp.ClusterName
  match baseConstruction cluster clusterStateResp.Metadata.Indices.entries GoMap.empty with
  | none => none
  | some m =>
    some (routingOverlay clusterStateResp.RoutingTable (blockOverlay clusterStateResp.Blocks m))

/-! ## The collector and one poll (`cluster_state.go`, lines 62-183 and 279-294) -/

/-- The three process-scoped series of a `ClusterState`.  The logger, the HTTP
client and the URL belong to the transport and are left out; `metrics` never
changes after `NewClusterState` and is the constant `metrics` below.  The gauge
and the counters only ever hold whole numbers. -/
structure ClusterState where
  up : Nat
  totalScrapes : Nat
  jsonParseFailures : Nat
deriving DecidableEq

/-- Lines 73-84: `indexStateLabels.keys()`. -/
def indexStateLabels.keys : List String :=
  ["index", "color", "state", "dynamic", "creation_date", "number_of_shards",
    "number_of_replicas", READ, WRITE, METADATA_READ, METADATA_WRITE, "es_cluster"]

/-- Lines 81-83: `indexStateLabels.values(s...)`. -/
def indexStateLabels.values (s : List String) : List String := s

/-- An entry of `c.metrics`: the name of the series and its label keys.  `Type`
is always `GaugeValue` and `Value` is the identity. -/
structure indexStateMetric where
  Name : String
  LabelKeys : List String
deriving DecidableEq

/-- Lines 103-116: the `metrics` slice set up by `NewClusterState`. -/
def metrics : List indexStateMetric :=
  [{ Name := "status", LabelKeys := indexStateLabels.keys }]

/-- What is sent on the channel `ch`: a constant metric made by
`MustNewConstMetric`, or one of the three process-scoped series with the value
it holds. -/
inductive Metric where
  | const (desc : indexStateMetric) (value : Nat) (labelValues : List String)
  | up (v : Nat)
  | totalScrapes (v : Nat)
  | jsonParseFailures (v : Nat)
deriving DecidableEq

/-- The function `prometheus.MustNewConstMetric`: it panics (`none`) when the
number of label values differs from the number of label keys of the
descriptor. -/
def MustNewConstMetric (desc : indexStateMetric) (value : Nat) (labelValues : List String) :
    Option Metric :=
  if labelValues.length = desc.LabelKeys.length then some (Metric.const desc value labelValues)
  else none

/-- What `ioutil.ReadAll(res.Body)` returns: an error, or the bytes read. -/
inductive ReadAllResult where
  | err
  | bytes (bts : List Nat)
deriving DecidableEq

/-- What `c.client.Get` returns: an error, or a response with its status code
and its body. -/
inductive GetResult where
  | err
  | response (StatusCode : Int) (Body : ReadAllResult)
deriving DecidableEq

/-- The constant `http.StatusOK`. -/
def http.StatusOK : Int := 200

/-- Lines 129-164: `fetchAndDecodeClusterState`.  The argument `Unmarshal`
stands for `json.Unmarshal` into a `clusterStateResponse` (`none`: it returns an
error) and `res` for the outcome of the HTTP exchange.  The result is the
collector afterwards and the decoded snapshot, `none` when `err != nil`. -/
def fetchAndDecodeClusterState (Unmarshal : List Nat → Option clusterStateResponse)
    (c : ClusterState) (res : GetResult) : ClusterState × Option clusterStateResponse :=
  match res with
  | GetResult.err => (c, none)
  | GetResult.response StatusCode Body =>
    if StatusCode ≠ http.StatusOK then (c, none)
    else
      match Body with
      | ReadAllResult.err => ({ c with jsonParseFailures := c.jsonParseFailures + 1 }, none)
      | ReadAllResult.bytes bts =>
        match Unmarshal bts with
        | none => ({ c with jsonParseFailures := c.jsonParseFailures + 1 }, none)
        | some csr => (c, some csr)

/-- Lines 286-289: the label values of one record. -/
def labelValues (indexStateStatus : IndexStateStatus) : List String :=
  indexStateLabels.values
    [indexStateStatus.Index, indexStateStatus.Color, indexStateStatus.State,
      indexStateStatus.Dynamic, indexStateStatus.CreationDate, indexStateStatus.NumberOfShards,
      indexStateStatus.NumberOfReplicas, indexStateStatus.Read, indexStateStatus.Write,
      indexStateStatus.MetadataRead, indexStateStatus.MetadataWrite, indexStateStatus.EsCluster]

/-- Lines 281-291: the inner loop over `c.metrics` for one record.  The result
is what was sent, and whether `MustNewConstMetric` panicked. -/
def emitRecord (indexStateStatus : IndexStateStatus) : List indexStateMetric → List Metric × Bool
  | [] => ([], false)
  | metric :: rest =>
    match MustNewConstMetric metric indexStateStatus.value (labelValues indexStateStatus) with
    | none => ([], true)
    | some mt =>
      let (sent, panicked) := emitRecord indexStateStatus rest
      (mt :: sent, panicked)

/-- Lines 279-292: the loop over the finished mapping, visited in the order
`visit`. -/
def emitAll : List (String × IndexStateStatus) → List Metric × Bool
  | [] => ([], false)
  | (_, indexStateStatus) :: rest =>
    match emitRecord indexStateStatus metrics with
    | (sent, true) => (sent, true)
    | (sent, false) =>
      let (sent', panicked) := emitAll rest
      (sent ++ sent', panicked)

/-- An order in which `range` visits the finished mapping: some rearrangement
of its entries. -/
structure RangeOrder where
  visit : GoMap IndexStateStatus → List (String × IndexStateStatus)
  perm : ∀ m, (visit m).Perm m.entries

/-- The order in which the entries are listed. -/
def RangeOrder.listed : RangeOrder := ⟨fun m => m.entries, fun _ => List.Perm.refl _⟩

/-- The outcome of one call of `Collect`: the collector afterwards, what was
sent on `ch` in sending order, and whether the call ended in a panic. -/
structure CollectResult where
  state : ClusterState
  sent : List Metric
  panicked : Bool
deriving DecidableEq

/-- Lines 167-171: the deferred function, which runs when `Collect` returns or
panics. -/
def deferred (c : ClusterState) : List Metric :=
  [Metric.up c.up, Metric.totalScrapes c.totalScrapes,
    Metric.jsonParseFailures c.jsonParseFailures]

/-- Lines 165-294: `ClusterState.Collect`. -/
def Collect (Unmarshal : List Nat → Option clusterStateResponse) (order : RangeOrder)
    (c : ClusterState) (res : GetResult) : CollectResult :=
  let c := { c with totalScrapes := c.totalScrapes + 1 }
  match fetchAndDecodeClusterState Unmarshal c res with
  | (c, none) =>
    let c := { c with up := 0 }
    { state := c, sent := deferred c, panicked := false }
  | (c, some clusterStateResp) =>
    let c := { c with up := 1 }
    match indexStateStatusMap clusterStateResp with
    | none => { state := c, sent := deferred c, panicked := true }
    | some m =>
      let (sent, panicked) := emitAll (order.visit m)
      { state := c, sent := sent ++ deferred c, panicked := panicked }

/-- The per-resource observations among what was sent. -/
def perResource (sent : List Metric) : List Metric :=
  sent.filter (fun mt => match mt with
    | Metric.const _ _ _ => true
    | _ => false)

/-! ## Auxiliary definitions for the statements -/

/-- What the block overlay does to the record of a resource listed in
`Blocks.Indices` with the block entries `bm` (lines 221-240). -/
def blockPart (bm : GoMap blocksDetail) (st : IndexStateStatus) : IndexStateStatus :=
  if bm.len ≤ 0 then st
  else applyBlock (strings.Join (collectLevels bm.entries []) ",") st

/-- What the routing overlay does to the record of a resource listed in
`RoutingTable.Indices` with the routing entry `sh` (lines 248-274). -/
def routePart (sh : shards) (st : IndexStateStatus) : IndexStateStatus :=
  applyColor (scanShards GREEN sh.Shards.entries) st

/-- The two overlays applied to the record `st` of the resource `name`. -/
def overlaid (resp : clusterStateResponse) (name : String) (st : IndexStateStatus) :
    IndexStateStatus :=
  let st1 :=
    match resp.Blocks.Indices.get name with
    | none => st
    | some bm => blockPart bm st
  match resp.RoutingTable.Indices.get name with
  | none => st1
  | some sh => routePart sh st1

/-- The copy is unassigned. -/
def isUnassigned (d : shardsDetail) : Bool := decide (d.State = "UNASSIGNED")

/-- The copy is an unassigned primary. -/
def isUnassignedPrimary (d : shardsDetail) : Bool :=
  decide (d.State = "UNASSIGNED") && d.Primary

/-- A dynamic setting that is present and a non-empty string. -/
def presentNonEmpty (mp : mappings) : Option String :=
  match mp.Dynamic with
  | Iface.str s => if s = "" then none else some s
  | _ => none

/-- The first dynamic value, in scanning order, that is present and a non-empty
string. -/
def firstDynamic (ms : List (String × mappings)) : Option String :=
  (ms.filterMap (fun e => presentNonEmpty e.2)).head?

/-- The value is `nil` or a string: the assertion `.(string)` cannot fail on
it. -/
def Iface.isStringOrNil : Iface → Bool
  | Iface.nil => true
  | Iface.str _ => true
  | _ => false

/-- Every dynamic setting of the snapshot is absent or a string. -/
def stringDynamics (resp : clusterStateResponse) : Prop :=
  ∀ e ∈ resp.Metadata.Indices.entries, ∀ t ∈ e.2.Mappings.entries,
    t.2.Dynamic.isStringOrNil = true

/-- Some level string of some block entry of the resource `name` contains the
token `T` as a substring. -/
def levelBlocks (resp : clusterStateResponse) (name T : String) : Prop :=
  ∃ bm, resp.Blocks.Indices.get name = some bm ∧
    ∃ e ∈ bm.entries, ∃ l ∈ e.2.Levels, strings.Contains l T = true

/-- The label `flag` is `"true"` when `P` holds and `"false"` otherwise. -/
def flagIs (flag : String) (P : Prop) : Prop :=
  (flag = "true" ↔ P) ∧ (flag = "false" ↔ ¬ P)

/-- The per-resource observation of one record: the record's value with the
twelve label values in the order of the label keys. -/
def observation (st : IndexStateStatus) : Metric :=
  Metric.const { Name := "status", LabelKeys := indexStateLabels.keys } st.value
    [st.Index, st.Color, st.State, st.Dynamic, st.CreationDate, st.NumberOfShards,
      st.NumberOfReplicas, st.Read, st.Write, st.MetadataRead, st.MetadataWrite, st.EsCluster]

/-- All copies of a routing entry, in scanning order. -/
def copies (shs : List (String × List shardsDetail)) : List shardsDetail :=
  shs.flatMap (fun sh => sh.2)

/-- The level of one copy: 0 if its state is not `UNASSIGNED`, 1 if it is an
unassigned replica, 2 if it is an unassigned primary. -/
def copyLevel (c : shardsDetail) : Nat :=
  if c.State = "UNASSIGNED" then (if c.Primary then 2 else 1) else 0

/-- The full scan without early exit: a running maximum of the levels of all
copies of all shards, started at 0. -/
def fullScan (shs : List (String × List shardsDetail)) : Nat :=
  shs.foldl (fun acc sh => sh.2.foldl (fun acc c => max acc (copyLevel c)) acc) 0

/-- The value that lines 268-274 store for a colour in a record whose value
is still the base value 0. -/
def severity (color : String) : Nat :=
  (applyColor color
    { EsCluster := "", Index := "", Color := "", State := "", NumberOfShards := "",
      NumberOfReplicas := "", Uuid := "", Dynamic := "", CreationDate := "", Read := FALSE,
      Write := FALSE, MetadataRead := FALSE, MetadataWrite := FALSE, value := 0 }).value

/-- The type mappings carry at most one distinct dynamic value that is present
and a non-empty string. -/
def oneDynamicValue (ms : List (String × mappings)) : Prop :=
  ∀ t ∈ ms, ∀ u ∈ ms, ∀ s s', presentNonEmpty t.2 = some s → presentNonEmpty u.2 = some s' →
    s = s'

/-- Two decoded snapshots hold the same content for the resource `name`, each
Go map being listed in some visiting order: same cluster name, same state and
settings, the same type mappings, the same block entries and the same shard
copies. -/
def sameContentAt (resp resp' : clusterStateResponse) (name : String) : Prop :=
  resp.ClusterName = resp'.ClusterName ∧
  (∃ d d', resp.Metadata.Indices.get name = some d ∧
    resp'.Metadata.Indices.get name = some d' ∧ d.State = d'.State ∧
    d.Settings = d'.Settings ∧ d.Mappings.entries.Perm d'.Mappings.entries) ∧
  ((resp.Blocks.Indices.get name = none ∧ resp'.Blocks.Indices.get name = none) ∨
    ∃ bm bm', resp.Blocks.Indices.get name = some bm ∧
      resp'.Blocks.Indices.get name = some bm' ∧ bm.entries.Perm bm'.entries) ∧
  ((resp.RoutingTable.Indices.get name = none ∧
      resp'.RoutingTable.Indices.get name = none) ∨
    ∃ sh sh', resp.RoutingTable.Indices.get name = some sh ∧
      resp'.RoutingTable.Indices.get name = some sh' ∧
      (copies sh.Shards.entries).Perm (copies sh'.Shards.entries))

/-! ## Sample snapshots -/

/-- An open index with one shard, no replica and the given type mappings. -/
def sampleDetail (ms : GoMap mappings) : indexDetail :=
  { State := "open"
    Settings := { Index := { CreationDate := "1600000000000", NumberOfShards := "1",
                             NumberOfReplicas := "0", Uuid := "u" } }
    Mappings := ms }

/-- A shard copy of the given state. -/
def sampleCopy (state : String) (primary : Bool) : shardsDetail :=
  { State := state, Primary := primary, Node := "", RelocatingNode := "", Index := "idx" }

/-- A snapshot with the given three sections. -/
def sampleResponse (b : GoMap (GoMap blocksDetail)) (md : GoMap indexDetail)
    (rt : GoMap shards) : clusterStateResponse :=
  { ClusterName := "es", ClusterUuid := "", StateUuid := "", MasterNode := ""
    Blocks := { Global := GoMap.empty, Indices := b }
    Metadata := { ClusterUuid := "", Indices := md }
    RoutingTable := { Indices := rt } }

/-- Two resources: `idx-a` with metadata only; `idx-b` with one block entry of
levels `read`, `write` and one unassigned replica.  The blocks and the routing
table also list `ghost`, which the metadata does not know. -/
def snapTwo : clusterStateResponse :=
  sampleResponse
    ⟨[("idx-b", ⟨[("8", ⟨"read-only", false, ["read", "write"]⟩)], by decide⟩),
      ("ghost", ⟨[("8", ⟨"read-only", false, ["write"]⟩)], by decide⟩)], by decide⟩
    ⟨[("idx-a", sampleDetail GoMap.empty), ("idx-b", sampleDetail GoMap.empty)], by decide⟩
    ⟨[("ghost", ⟨⟨[("0", [sampleCopy "UNASSIGNED" true])], by decide⟩⟩),
      ("idx-b", ⟨⟨[("0", [sampleCopy "UNASSIGNED" false])], by decide⟩⟩)], by decide⟩

/-- One resource whose shard `0` has a started primary and an unassigned
replica, and whose shard `1`, scanned later, has an unassigned primary
followed by an unassigned replica. -/
def snapRed : clusterStateResponse :=
  sampleResponse GoMap.empty
    ⟨[("idx", sampleDetail GoMap.empty)], by decide⟩
    ⟨[("idx", ⟨⟨[("0", [sampleCopy "STARTED" true, sampleCopy "UNASSIGNED" false]),
                 ("1", [sampleCopy "UNASSIGNED" true, sampleCopy "UNASSIGNED" false])],
        by decide⟩⟩)], by decide⟩

/-- One resource all of whose copies are started. -/
def snapGreen : clusterStateResponse :=
  sampleResponse GoMap.empty
    ⟨[("idx", sampleDetail GoMap.empty)], by decide⟩
    ⟨[("idx", ⟨⟨[("0", [sampleCopy "STARTED" true, sampleCopy "STARTED" false])],
        by decide⟩⟩)], by decide⟩

/-- One resource whose only block entry has the single level
`metadata_write`. -/
def snapMetadataWrite : clusterStateResponse :=
  sampleResponse
    ⟨[("idx", ⟨[("9", ⟨"metadata blocked", false, ["metadata_write"]⟩)], by decide⟩)],
      by decide⟩
    ⟨[("idx", sampleDetail GoMap.empty)], by decide⟩
    GoMap.empty

/-- One resource whose four type mappings carry, in scanning order, no dynamic
setting, the empty string, `strict` and `false`. -/
def snapDynamic : clusterStateResponse :=
  sampleResponse GoMap.empty
    ⟨[("idx", sampleDetail ⟨[("a", ⟨Iface.nil⟩), ("b", ⟨Iface.str ""⟩),
        ("c", ⟨Iface.str "strict"⟩), ("d", ⟨Iface.str "false"⟩)], by decide⟩)], by decide⟩
    GoMap.empty

/-- One resource whose only type mapping has the dynamic setting decoded from
the JSON boolean `false`. -/
def snapBoolDynamic : clusterStateResponse :=
  sampleResponse GoMap.empty
    ⟨[("idx", sampleDetail ⟨[("_doc", ⟨Iface.bool false⟩)], by decide⟩)], by decide⟩
    GoMap.empty

/-- The two resources of the scenario: `idx-a` with metadata only; `idx-b`
with one block entry of levels `read`, `write` and a routing entry with one
unassigned replica. -/
def snapScenario : clusterStateResponse :=
  sampleResponse
    ⟨[("idx-b", ⟨[("8", ⟨"read-only", false, ["read", "write"]⟩)], by decide⟩)], by decide⟩
    ⟨[("idx-a", sampleDetail GoMap.empty), ("idx-b", sampleDetail GoMap.empty)], by decide⟩
    ⟨[("idx-b", ⟨⟨[("0", [sampleCopy "UNASSIGNED" false])], by decide⟩⟩)], by decide⟩

/-- The resource of `snapRed` with its two shards visited in the other order
and the copies of each shard swapped. -/
def snapRedReordered : clusterStateResponse :=
  sampleResponse GoMap.empty
    ⟨[("idx", sampleDetail GoMap.empty)], by decide⟩
    ⟨[("idx", ⟨⟨[("1", [sampleCopy "UNASSIGNED" false, sampleCopy "UNASSIGNED" true]),
                 ("0", [sampleCopy "UNASSIGNED" false, sampleCopy "STARTED" true])],
        by decide⟩⟩)], by decide⟩

/-- One resource with two type mappings: `a` with the dynamic setting `strict`,
visited first, and `b` with the dynamic setting `false`. -/
def snapStrictFalse : clusterStateResponse :=
  sampleResponse GoMap.empty
    ⟨[("idx", sampleDetail ⟨[("a", ⟨Iface.str "strict"⟩), ("b", ⟨Iface.str "false"⟩)],
        by decide⟩)], by decide⟩
    GoMap.empty

/-- The snapshot `snapStrictFalse` with the type mapping `b` visited first. -/
def snapFalseStrict : clusterStateResponse :=
  sampleResponse GoMap.empty
    ⟨[("idx", sampleDetail ⟨[("b", ⟨Iface.str "false"⟩), ("a", ⟨Iface.str "strict"⟩)],
        by decide⟩)], by decide⟩
    GoMap.empty

/-- The snapshot `snapDynamic` with its type mappings visited in the reverse
order. -/
def snapDynamicReversed : clusterStateResponse :=
  sampleResponse GoMap.empty
    ⟨[("idx", sampleDetail ⟨[("d", ⟨Iface.str "strict"⟩), ("c", ⟨Iface.str "strict"⟩),
        ("b", ⟨Iface.str ""⟩), ("a", ⟨Iface.nil⟩)], by decide⟩)], by decide⟩
    GoMap.empty

/-- One resource whose type mappings carry no dynamic setting, the empty
string and twice `strict`. -/
def snapDynamicOne : clusterStateResponse :=
  sampleResponse GoMap.empty
    ⟨[("idx", sampleDetail ⟨[("a", ⟨Iface.nil⟩), ("b", ⟨Iface.str ""⟩),
        ("c", ⟨Iface.str "strict"⟩), ("d", ⟨Iface.str "strict"⟩)], by decide⟩)], by decide⟩
    GoMap.empty

/-- One resource whose two type mappings carry, in scanning order, the dynamic
setting decoded from the JSON boolean `false` and the string `strict`. -/
def snapBoolThenStrict : clusterStateResponse :=
  sampleResponse GoMap.empty
    ⟨[("idx", sampleDetail ⟨[("a", ⟨Iface.bool false⟩), ("b", ⟨Iface.str "strict"⟩)],
        by decide⟩)], by decide⟩
    GoMap.empty

/-! ## Go maps: lookup and assignment -/

namespace GoMap

variable {V : Type}

theorem getEntries_setEntries (es : List (String × V)) (k : String) (v : V) (a : String) :
    getEntries (setEntries es k v) a = if k = a then some v else getEntries es a := by
  induction es with
  | nil => simp [setEntries, getEntries]
  | cons e rest ih =>
    obtain ⟨k', v'⟩ := e
    by_cases hk : k' = k
    · subst hk
      by_cases hka : k' = a
      · simp [setEntries, getEntries, hka]
      · simp [setEntries, getEntries, hka]
    · simp only [setEntries, if_neg hk, getEntries, ih]
      by_cases hka : k' = a
      · subst hka
        simp [Ne.symm hk]
      · simp [hka]

theorem get_set (m : GoMap V) (k : String) (v : V) (a : String) :
    (m.set k v).get a = if k = a then some v else m.get a :=
  getEntries_setEntries m.entries k v a

theorem get_empty (a : String) : (empty : GoMap V).get a = none := rfl

theorem getEntries_eq_none_iff (es : List (String × V)) (a : String) :
    getEntries es a = none ↔ a ∉ es.map Prod.fst := by
  induction es with
  | nil => simp [getEntries]
  | cons e rest ih =>
    obtain ⟨k', v'⟩ := e
    by_cases hk : k' = a
    · subst hk
      simp [getEntries]
    · simp [getEntries, hk, ih, Ne.symm hk]

theorem get_eq_none_iff (m : GoMap V) (a : String) : m.get a = none ↔ a ∉ m.keys :=
  getEntries_eq_none_iff m.entries a

theorem mem_keys_iff (m : GoMap V) (a : String) : a ∈ m.keys ↔ ∃ v, m.get a = some v := by
  have h := get_eq_none_iff m a
  cases hg : m.get a with
  | none => simpa [hg] using h.1 hg
  | some v =>
    have : ¬ a ∉ m.keys := fun hn => by simp [h.2 hn] at hg
    simpa using this

theorem getEntries_mem (es : List (String × V)) (a : String) (v : V)
    (h : getEntries es a = some v) : (a, v) ∈ es := by
  induction es with
  | nil => simp [getEntries] at h
  | cons e rest ih =>
    obtain ⟨k', v'⟩ := e
    by_cases hk : k' = a
    · subst hk
      simp only [getEntries, if_true, Option.some.injEq] at h
      subst h
      exact List.mem_cons_self _ _
    · simp only [getEntries, if_neg hk] at h
      exact List.mem_cons_of_mem _ (ih h)

theorem getEntries_of_mem (es : List (String × V)) (hnd : (es.map Prod.fst).Nodup)
    (a : String) (v : V) (h : (a, v) ∈ es) : getEntries es a = some v := by
  induction es with
  | nil => simp at h
  | cons e rest ih =>
    obtain ⟨k', v'⟩ := e
    rw [List.map_cons, List.nodup_cons] at hnd
    rcases List.mem_cons.1 h with h | h
    · cases h
      simp [getEntries]
    · have hne : k' ≠ a := by
        rintro rfl
        exact hnd.1 (List.mem_map.2 ⟨(k', v), h, rfl⟩)
      simp only [getEntries, if_neg hne]
      exact ih hnd.2 h

theorem get_iff_mem (m : GoMap V) (a : String) (v : V) :
    m.get a = some v ↔ (a, v) ∈ m.entries :=
  ⟨getEntries_mem m.entries a v, getEntries_of_mem m.entries m.nodup a v⟩

/-- Two maps with the same keys have the same number of entries. -/
theorem len_eq_of_keys {W : Type} (m : GoMap V) (n : GoMap W)
    (h : ∀ a, a ∈ m.keys ↔ a ∈ n.keys) : m.len = n.len := by
  have hp : m.keys.Perm n.keys := (List.perm_ext_iff_of_nodup m.nodup n.nodup).2 h
  have := hp.length_eq
  simpa [keys, len] using this

/-- A loop whose body rewrites at most the entry of the visited key: the entry
of `a` afterwards is the entry before, rewritten by the item visited for `a`. -/
theorem get_foldl_step {β : Type} (step : GoMap V → String × β → GoMap V) (g : β → V → V)
    (hstep : ∀ m e a, (step m e).get a = if e.1 = a then (m.get a).map (g e.2) else m.get a)
    (es : List (String × β)) (hnd : (es.map Prod.fst).Nodup) (m : GoMap V) (a : String) :
    (es.foldl step m).get a =
      match getEntries es a with
      | none => m.get a
      | some b => (m.get a).map (g b) := by
  induction es generalizing m with
  | nil => simp [getEntries]
  | cons e rest ih =>
    obtain ⟨k', b'⟩ := e
    rw [List.map_cons, List.nodup_cons] at hnd
    rw [List.foldl_cons, ih hnd.2]
    by_cases hk : k' = a
    · subst hk
      have hnone : getEntries rest k' = none := (getEntries_eq_none_iff rest k').2 hnd.1
      simp [getEntries, hnone, hstep]
    · simp [getEntries, hk, hstep]

end GoMap

/-! ## Substring search and joining -/

theorem containsChars_iff (s substr : List Char) :
    containsChars s substr = true ↔ substr <:+: s := by
  induction s with
  | nil => simp [containsChars]
  | cons c cs ih =>
    simp only [containsChars, Bool.or_eq_true, List.isPrefixOf_iff_prefix, ih]
    exact List.infix_cons_iff.symm

theorem strings.Contains_iff (s substr : String) :
    strings.Contains s substr = true ↔ substr.data <:+: s.data :=
  containsChars_iff s.data substr.data

/-- A word without the separator that occurs in `a ++ sep :: b` occurs in `a`
or in `b`. -/
theorem infix_append_sep {t a b : List Char} {c : Char} (hc : c ∉ t)
    (h : t <:+: a ++ c :: b) : t <:+: a ∨ t <:+: b := by
  obtain ⟨u, v, huv⟩ := h
  rw [List.append_assoc] at huv
  rcases List.append_eq_append_iff.1 huv with ⟨a', ha, hb⟩ | ⟨c', ha, hb⟩
  · -- `a = u ++ a'` and `t ++ v = a' ++ c :: b`
    rcases List.append_eq_append_iff.1 hb with ⟨d, hd, _⟩ | ⟨d, hd, hd2⟩
    · -- `a' = t ++ d`
      left
      exact ⟨u, d, by rw [ha, hd, List.append_assoc]⟩
    · -- `t = a' ++ d` and `c :: b = d ++ v`
      cases d with
      | nil =>
        left
        refine ⟨u, [], ?_⟩
        rw [ha, hd]
        simp
      | cons x d' =>
        exfalso
        rw [List.cons_append, List.cons.injEq] at hd2
        apply hc
        rw [hd, hd2.1]
        simp
  · -- `u = a ++ c'` and `c :: b = c' ++ (t ++ v)`
    cases c' with
    | nil =>
      cases t with
      | nil => left; exact ⟨[], a, by simp⟩
      | cons x t' =>
        exfalso
        rw [List.nil_append, List.cons_append, List.cons.injEq] at hb
        apply hc
        rw [hb.1]
        simp
    | cons x c'' =>
      right
      rw [List.cons_append, List.cons.injEq] at hb
      exact ⟨c'', v, by rw [hb.2, List.append_assoc]⟩

theorem strings.Join_cons_cons (a b : String) (rest : List String) (sep : String) :
    (strings.Join (a :: b :: rest) sep).data =
      a.data ++ sep.data ++ (strings.Join (b :: rest) sep).data := by
  simp [strings.Join, String.data_append]

/-- A word without a comma occurs in the comma-joined string exactly when it
occurs in one of the joined strings. -/
theorem infix_Join_iff (t : List Char) (hc : ',' ∉ t) (hne : t ≠ []) (ls : List String) :
    t <:+: (strings.Join ls ",").data ↔ ∃ l ∈ ls, t <:+: l.data := by
  induction ls with
  | nil => simp [strings.Join, hne]
  | cons a rest ih =>
    cases rest with
    | nil => simp [strings.Join]
    | cons b rest' =>
      rw [strings.Join_cons_cons]
      have hsep : (",": String).data = [','] := rfl
      rw [hsep, List.append_assoc, List.singleton_append]
      constructor
      · intro h
        rcases infix_append_sep hc h with h | h
        · exact ⟨a, List.mem_cons_self _ _, h⟩
        · obtain ⟨l, hl, hl2⟩ := ih.1 h
          exact ⟨l, List.mem_cons_of_mem _ hl, hl2⟩
      · rintro ⟨l, hl, hl2⟩
        rcases List.mem_cons.1 hl with rfl | hl
        · obtain ⟨u, v, huv⟩ := hl2
          exact ⟨u, v ++ ',' :: (strings.Join (b :: rest') ",").data, by
            rw [← huv]; simp⟩
        · obtain ⟨u, v, huv⟩ := ih.2 ⟨l, hl, hl2⟩
          exact ⟨a.data ++ ',' :: u, v, by rw [← huv]; simp⟩

theorem collectLevels_eq (es : List (String × blocksDetail)) (acc : List String) :
    collectLevels es acc = acc ++ es.flatMap (fun e => e.2.Levels) := by
  induction es generalizing acc with
  | nil => simp [collectLevels]
  | cons e rest ih =>
    obtain ⟨k, d⟩ := e
    simp [collectLevels, ih]

theorem mem_collectLevels (es : List (String × blocksDetail)) (l : String) :
    l ∈ collectLevels es [] ↔ ∃ e ∈ es, l ∈ e.2.Levels := by
  simp [collectLevels_eq, List.mem_flatMap]

/-! ## The routing scan -/

theorem YELLOW_ne_RED : YELLOW ≠ RED := by decide
theorem GREEN_ne_RED : GREEN ≠ RED := by decide
theorem GREEN_ne_YELLOW : GREEN ≠ YELLOW := by decide

theorem scanCopies_fst (color : String) (ds : List shardsDetail) :
    (scanCopies color ds).1 =
      if color = RED then RED
      else if ds.any isUnassignedPrimary then RED
      else if ds.any isUnassigned then YELLOW
      else color := by
  induction ds generalizing color with
  | nil => by_cases h : color = RED <;> simp [scanCopies, h]
  | cons d rest ih =>
    by_cases h : color = RED
    · simp [scanCopies, h]
    · by_cases hu : d.State = "UNASSIGNED"
      · cases hp : d.Primary
        · simp [scanCopies, h, ih, hu, hp, isUnassigned, isUnassignedPrimary, YELLOW_ne_RED]
        · simp [scanCopies, h, ih, hu, hp, isUnassigned, isUnassignedPrimary]
      · simp [scanCopies, h, ih, hu, isUnassigned, isUnassignedPrimary]

theorem scanCopies_snd (color : String) (ds : List shardsDetail)
    (h : (scanCopies color ds).2 = true) : (scanCopies color ds).1 = RED := by
  induction ds generalizing color with
  | nil => simp [scanCopies] at h
  | cons d rest ih =>
    by_cases hc : color = RED
    · simp [scanCopies, hc]
    · simp only [scanCopies, if_neg hc] at h ⊢
      exact ih _ h

theorem scanShards_eq (color : String) (shs : List (String × List shardsDetail)) :
    scanShards color shs =
      if color = RED then RED
      else if shs.any (fun sh => sh.2.any isUnassignedPrimary) then RED
      else if shs.any (fun sh => sh.2.any isUnassigned) then YELLOW
      else color := by
  induction shs generalizing color with
  | nil => by_cases h : color = RED <;> simp [scanShards, h]
  | cons sh rest ih =>
    obtain ⟨k, ds⟩ := sh
    have h1 := scanCopies_fst color ds
    have h2 := scanCopies_snd color ds
    rcases hs : scanCopies color ds with ⟨c, b⟩
    rw [hs] at h1 h2
    simp only at h1 h2
    cases b with
    | true =>
      have hc : c = RED := h2 rfl
      simp only [scanShards, hs]
      rw [hc] at h1 ⊢
      by_cases h : color = RED
      · simp [h]
      · by_cases hup : ds.any isUnassignedPrimary = true
        · simp [h, hup]
        · exfalso
          simp only [if_neg h, hup] at h1
          by_cases hu : ds.any isUnassigned = true
          · simp only [hu, if_true] at h1
            exact YELLOW_ne_RED h1.symm
          · simp only [hu] at h1
            exact h (by simpa using h1.symm)
    | false =>
      simp only [scanShards, hs]
      rw [ih c, h1]
      by_cases h : color = RED
      · simp [h]
      · cases hup : ds.any isUnassignedPrimary
        · cases hu : ds.any isUnassigned
          · simp only [List.any_cons, hup, hu, Bool.false_or, if_neg h, Bool.false_eq_true,
              if_false]
          · simp only [List.any_cons, hup, hu, Bool.false_or, Bool.true_or, if_neg h,
              Bool.false_eq_true, if_false, if_true, if_neg YELLOW_ne_RED, ite_self]
        · simp only [List.any_cons, hup, Bool.true_or, if_neg h, if_true]

/-! ## The three passes, entry by entry -/

theorem blockStep_get (m : GoMap IndexStateStatus) (e : String × GoMap blocksDetail)
    (a : String) :
    (blockStep m e).get a = if e.1 = a then (m.get a).map (blockPart e.2) else m.get a := by
  unfold blockStep
  cases hg : m.get e.1 with
  | none =>
    by_cases h : e.1 = a
    · rw [if_pos h, ← h, hg]; rfl
    · rw [if_neg h]
  | some st =>
    by_cases hl : e.2.len ≤ 0
    · simp only [if_pos hl]
      by_cases h : e.1 = a
      · rw [if_pos h, ← h, hg]
        simp [blockPart, hl]
      · rw [if_neg h]
    · simp only [if_neg hl, GoMap.get_set]
      by_cases h : e.1 = a
      · rw [if_pos h, if_pos h, ← h, hg]
        simp [blockPart, hl]
      · rw [if_neg h, if_neg h]

theorem blockOverlay_get (b : blocks) (m : GoMap IndexStateStatus) (a : String) :
    (blockOverlay b m).get a =
      match b.Indices.get a with
      | none => m.get a
      | some bm => (m.get a).map (blockPart bm) := by
  unfold blockOverlay
  by_cases h : b.Indices.len > 0
  · rw [if_pos h]
    rw [GoMap.get_foldl_step blockStep blockPart blockStep_get _ b.Indices.nodup m a]
    unfold GoMap.get
    cases GoMap.getEntries b.Indices.entries a <;> rfl
  · rw [if_neg h]
    have he : b.Indices.entries = [] := by
      simpa [GoMap.len] using h
    simp [GoMap.get, he, GoMap.getEntries]

theorem routingStep_get (m : GoMap IndexStateStatus) (e : String × shards) (a : String) :
    (routingStep m e).get a = if e.1 = a then (m.get a).map (routePart e.2) else m.get a := by
  unfold routingStep
  cases hg : m.get e.1 with
  | none =>
    by_cases h : e.1 = a
    · rw [if_pos h, ← h, hg]; rfl
    · rw [if_neg h]
  | some st =>
    simp only [GoMap.get_set]
    by_cases h : e.1 = a
    · rw [if_pos h, if_pos h, ← h, hg]
      simp [routePart]
    · rw [if_neg h, if_neg h]

theorem routingOverlay_get (r : routingTable) (m : GoMap IndexStateStatus) (a : String) :
    (routingOverlay r m).get a =
      match r.Indices.get a with
      | none => m.get a
      | some sh => (m.get a).map (routePart sh) := by
  unfold routingOverlay
  by_cases h : r.Indices.len > 0
  · rw [if_pos h]
    rw [GoMap.get_foldl_step routingStep routePart routingStep_get _ r.Indices.nodup m a]
    unfold GoMap.get
    cases GoMap.getEntries r.Indices.entries a <;> rfl
  · rw [if_neg h]
    have he : r.Indices.entries = [] := by
      simpa [GoMap.len] using h
    simp [GoMap.get, he, GoMap.getEntries]

/-- The base construction, entry by entry: a resource of the metadata gets its
base record, every other name keeps what the map held before. -/
theorem baseConstruction_get (cluster : String) (es : List (String × indexDetail))
    (hnd : (es.map Prod.fst).Nodup) (m m' : GoMap IndexStateStatus)
    (h : baseConstruction cluster es m = some m') (a : String) :
    (GoMap.getEntries es a = none → m'.get a = m.get a) ∧
    (∀ d, GoMap.getEntries es a = some d →
      ∃ dyn, resolveDynamic d.Mappings.entries = some dyn ∧
        m'.get a = some (baseRecord cluster a d dyn)) := by
  induction es generalizing m with
  | nil =>
    simp only [baseConstruction, Option.some.injEq] at h
    subst h
    simp [GoMap.getEntries]
  | cons e rest ih =>
    obtain ⟨index, detail⟩ := e
    rw [List.map_cons, List.nodup_cons] at hnd
    cases hr : resolveDynamic detail.Mappings.entries with
    | none => simp [baseConstruction, hr] at h
    | some dyn =>
      simp only [baseConstruction, hr] at h
      obtain ⟨ih1, ih2⟩ := ih hnd.2 _ h
      by_cases hk : index = a
      · subst hk
        have hnone : GoMap.getEntries rest index = none :=
          (GoMap.getEntries_eq_none_iff rest index).2 hnd.1
        refine ⟨fun hc => by simp [GoMap.getEntries] at hc, fun d hd => ?_⟩
        simp only [GoMap.getEntries, if_true, Option.some.injEq] at hd
        subst hd
        exact ⟨dyn, hr, by rw [ih1 hnone, GoMap.get_set, if_pos rfl]⟩
      · simp only [GoMap.getEntries, if_neg hk]
        refine ⟨fun hc => ?_, ih2⟩
        rw [ih1 hc, GoMap.get_set, if_neg hk]

/-- The base construction returns as soon as every scan of type mappings
does. -/
theorem baseConstruction_isSome (cluster : String) (es : List (String × indexDetail))
    (m : GoMap IndexStateStatus)
    (h : ∀ e ∈ es, (resolveDynamic e.2.Mappings.entries).isSome = true) :
    ∃ m', baseConstruction cluster es m = some m' := by
  induction es generalizing m with
  | nil => exact ⟨m, rfl⟩
  | cons e rest ih =>
    obtain ⟨index, detail⟩ := e
    have h0 := h (index, detail) (List.mem_cons_self _ _)
    obtain ⟨dyn, hd⟩ := Option.isSome_iff_exists.1 h0
    simp only at hd
    simp only [baseConstruction, hd]
    exact ih _ (fun e he => h e (List.mem_cons_of_mem _ he))

/-- The record of every name once the three passes are through. -/
theorem indexStateStatusMap_get (resp : clusterStateResponse) (m : GoMap IndexStateStatus)
    (h : indexStateStatusMap resp = some m) (a : String) :
    (resp.Metadata.Indices.get a = none → m.get a = none) ∧
    (∀ d, resp.Metadata.Indices.get a = some d →
      ∃ dyn, resolveDynamic d.Mappings.entries = some dyn ∧
        m.get a = some (overlaid resp a (baseRecord resp.ClusterName a d dyn))) := by
  unfold indexStateStatusMap at h
  cases hb : baseConstruction resp.ClusterName resp.Metadata.Indices.entries GoMap.empty with
  | none => simp [hb] at h
  | some m0 =>
    simp only [hb, Option.some.injEq] at h
    subst h
    obtain ⟨h1, h2⟩ := baseConstruction_get resp.ClusterName _ resp.Metadata.Indices.nodup
      GoMap.empty m0 hb a
    have key : (routingOverlay resp.RoutingTable (blockOverlay resp.Blocks m0)).get a =
        (m0.get a).map (overlaid resp a) := by
      rw [routingOverlay_get, blockOverlay_get]
      unfold overlaid
      cases resp.RoutingTable.Indices.get a <;> cases resp.Blocks.Indices.get a <;>
        cases m0.get a <;> rfl
    refine ⟨fun hn => ?_, fun d hd => ?_⟩
    · rw [key, h1 hn, GoMap.get_empty]; rfl
    · obtain ⟨dyn, hr, hg⟩ := h2 d hd
      exact ⟨dyn, hr, by rw [key, hg]; rfl⟩

/-! ## The scan of the type mappings -/

/-- The scan returns when every dynamic setting is absent or a string. -/
theorem resolveDynamic_isSome (ms : List (String × mappings))
    (h : ∀ t ∈ ms, t.2.Dynamic.isStringOrNil = true) :
    (resolveDynamic ms).isSome = true := by
  induction ms with
  | nil => rfl
  | cons t rest ih =>
    obtain ⟨k, mp⟩ := t
    have h0 := h (k, mp) (List.mem_cons_self _ _)
    have hr := ih (fun t ht => h t (List.mem_cons_of_mem _ ht))
    simp only at h0
    cases hd : mp.Dynamic with
    | nil => simpa [resolveDynamic, hd] using hr
    | str s =>
      by_cases hs : s = ""
      · simpa [resolveDynamic, hd, hs] using hr
      · simp [resolveDynamic, hd, hs]
    | bool b => simp [hd, Iface.isStringOrNil] at h0
    | number => simp [hd, Iface.isStringOrNil] at h0
    | array => simp [hd, Iface.isStringOrNil] at h0
    | object => simp [hd, Iface.isStringOrNil] at h0

/-- When the scan returns, it returns the first dynamic value that is present
and a non-empty string, and `"true"` when there is none. -/
theorem resolveDynamic_eq_firstDynamic (ms : List (String × mappings)) (dyn : String)
    (h : resolveDynamic ms = some dyn) : dyn = (firstDynamic ms).getD "true" := by
  induction ms with
  | nil =>
    simp only [resolveDynamic, Option.some.injEq] at h
    rw [← h]; rfl
  | cons t rest ih =>
    obtain ⟨k, mp⟩ := t
    cases hd : mp.Dynamic with
    | nil =>
      simp only [resolveDynamic, hd] at h
      rw [ih h]
      simp [firstDynamic, presentNonEmpty, hd]
    | str s =>
      by_cases hs : s = ""
      · simp only [resolveDynamic, hd, hs, ne_eq, not_true_eq_false, if_false] at h
        rw [ih h]
        simp [firstDynamic, presentNonEmpty, hd, hs]
      · simp only [resolveDynamic, hd, ne_eq, hs, not_false_eq_true, if_true,
          Option.some.injEq] at h
        rw [← h]
        simp [firstDynamic, presentNonEmpty, hd, hs]
    | bool b => simp [resolveDynamic, hd] at h
    | number => simp [resolveDynamic, hd] at h
    | array => simp [resolveDynamic, hd] at h
    | object => simp [resolveDynamic, hd] at h

/-- The aggregation returns a mapping when every dynamic setting is absent or
a string. -/
theorem indexStateStatusMap_isSome (resp : clusterStateResponse) (h : stringDynamics resp) :
    ∃ m, indexStateStatusMap resp = some m := by
  obtain ⟨m0, hm0⟩ := baseConstruction_isSome resp.ClusterName
    resp.Metadata.Indices.entries GoMap.empty
    (fun e he => resolveDynamic_isSome _ (h e he))
  exact ⟨routingOverlay resp.RoutingTable (blockOverlay resp.Blocks m0), by
    simp only [indexStateStatusMap, hm0]⟩

/-! ## What the overlays leave alone, and what they write -/

theorem applyBlock_Read (block : String) (st : IndexStateStatus) :
    (applyBlock block st).Read = if strings.Contains block READ then TRUE else st.Read := by
  unfold applyBlock
  split_ifs <;> rfl

theorem applyBlock_Write (block : String) (st : IndexStateStatus) :
    (applyBlock block st).Write = if strings.Contains block WRITE then TRUE else st.Write := by
  unfold applyBlock
  split_ifs <;> rfl

theorem applyBlock_MetadataRead (block : String) (st : IndexStateStatus) :
    (applyBlock block st).MetadataRead =
      if strings.Contains block METADATA_READ then TRUE else st.MetadataRead := by
  unfold applyBlock
  split_ifs <;> rfl

theorem applyBlock_MetadataWrite (block : String) (st : IndexStateStatus) :
    (applyBlock block st).MetadataWrite =
      if strings.Contains block METADATA_WRITE then TRUE else st.MetadataWrite := by
  unfold applyBlock
  split_ifs <;> rfl

theorem applyBlock_rest (block : String) (st : IndexStateStatus) :
    (applyBlock block st).Index = st.Index ∧ (applyBlock block st).Dynamic = st.Dynamic ∧
    (applyBlock block st).Color = st.Color ∧ (applyBlock block st).value = st.value := by
  unfold applyBlock
  split_ifs <;> exact ⟨rfl, rfl, rfl, rfl⟩

theorem blockPart_rest (bm : GoMap blocksDetail) (st : IndexStateStatus) :
    (blockPart bm st).Index = st.Index ∧ (blockPart bm st).Dynamic = st.Dynamic ∧
    (blockPart bm st).Color = st.Color ∧ (blockPart bm st).value = st.value := by
  unfold blockPart
  split_ifs
  · exact ⟨rfl, rfl, rfl, rfl⟩
  · exact applyBlock_rest _ st

theorem applyColor_Color (color : String) (st : IndexStateStatus) :
    (applyColor color st).Color = color := by
  unfold applyColor
  split_ifs <;> rfl

theorem applyColor_value (color : String) (st : IndexStateStatus) :
    (applyColor color st).value =
      if color = RED then 2 else if color = YELLOW then 1 else st.value := by
  unfold applyColor
  split_ifs <;> rfl

theorem applyColor_rest (color : String) (st : IndexStateStatus) :
    (applyColor color st).Index = st.Index ∧ (applyColor color st).Dynamic = st.Dynamic ∧
    (applyColor color st).Read = st.Read ∧ (applyColor color st).Write = st.Write ∧
    (applyColor color st).MetadataRead = st.MetadataRead ∧
    (applyColor color st).MetadataWrite = st.MetadataWrite := by
  unfold applyColor
  split_ifs <;> exact ⟨rfl, rfl, rfl, rfl, rfl, rfl⟩

/-- The block overlay of `overlaid`, on its own. -/
theorem overlaid_blocks (resp : clusterStateResponse) (a : String) (st : IndexStateStatus) :
    ∃ st1, st1 = (match resp.Blocks.Indices.get a with
        | none => st
        | some bm => blockPart bm st) ∧
      (overlaid resp a st).Index = st1.Index ∧ (overlaid resp a st).Dynamic = st1.Dynamic ∧
      (overlaid resp a st).Read = st1.Read ∧ (overlaid resp a st).Write = st1.Write ∧
      (overlaid resp a st).MetadataRead = st1.MetadataRead ∧
      (overlaid resp a st).MetadataWrite = st1.MetadataWrite := by
  refine ⟨_, rfl, ?_⟩
  unfold overlaid
  cases resp.RoutingTable.Indices.get a with
  | none => exact ⟨rfl, rfl, rfl, rfl, rfl, rfl⟩
  | some sh => exact applyColor_rest _ _

theorem overlaid_Index (resp : clusterStateResponse) (a : String) (st : IndexStateStatus) :
    (overlaid resp a st).Index = st.Index := by
  obtain ⟨st1, h1, h2, -⟩ := overlaid_blocks resp a st
  rw [h2, h1]
  cases resp.Blocks.Indices.get a with
  | none => rfl
  | some bm => exact (blockPart_rest bm st).1

theorem overlaid_Dynamic (resp : clusterStateResponse) (a : String) (st : IndexStateStatus) :
    (overlaid resp a st).Dynamic = st.Dynamic := by
  obtain ⟨st1, h1, -, h2, -⟩ := overlaid_blocks resp a st
  rw [h2, h1]
  cases resp.Blocks.Indices.get a with
  | none => rfl
  | some bm => exact (blockPart_rest bm st).2.1

/-- The colour and value of a resource with a routing entry. -/
theorem overlaid_routed (resp : clusterStateResponse) (a : String) (st : IndexStateStatus)
    (sh : shards) (h : resp.RoutingTable.Indices.get a = some sh) (hv : st.value = 0) :
    (overlaid resp a st).Color = scanShards GREEN sh.Shards.entries ∧
    (overlaid resp a st).value =
      if scanShards GREEN sh.Shards.entries = RED then 2
      else if scanShards GREEN sh.Shards.entries = YELLOW then 1 else 0 := by
  unfold overlaid
  simp only [h, routePart, applyColor_Color, applyColor_value, true_and]
  cases resp.Blocks.Indices.get a with
  | none => simp [hv]
  | some bm => simp [(blockPart_rest bm st).2.2.2, hv]

/-- The colour and value of a resource without a routing entry. -/
theorem overlaid_unrouted (resp : clusterStateResponse) (a : String) (st : IndexStateStatus)
    (h : resp.RoutingTable.Indices.get a = none) :
    (overlaid resp a st).Color = st.Color ∧ (overlaid resp a st).value = st.value := by
  unfold overlaid
  simp only [h]
  cases resp.Blocks.Indices.get a with
  | none => exact ⟨rfl, rfl⟩
  | some bm => exact ⟨(blockPart_rest bm st).2.2.1, (blockPart_rest bm st).2.2.2⟩

/-! ## Which resources get a record -/

/-- A record exists exactly for the resources of the metadata. -/
theorem get_isSome_iff (resp : clusterStateResponse) (m : GoMap IndexStateStatus)
    (h : indexStateStatusMap resp = some m) (a : String) :
    a ∈ m.keys ↔ a ∈ resp.Metadata.Indices.keys := by
  obtain ⟨h1, h2⟩ := indexStateStatusMap_get resp m h a
  constructor
  · intro ha
    by_contra hn
    have := h1 ((GoMap.get_eq_none_iff _ a).2 hn)
    exact (GoMap.get_eq_none_iff m a).1 this ha
  · intro ha
    obtain ⟨d, hd⟩ := (GoMap.mem_keys_iff _ a).1 ha
    obtain ⟨dyn, -, hg⟩ := h2 d hd
    exact (GoMap.mem_keys_iff m a).2 ⟨_, hg⟩

/-- The record of a resource of the metadata. -/
theorem record_of_mem (resp : clusterStateResponse) (m : GoMap IndexStateStatus)
    (h : indexStateStatusMap resp = some m) (a : String)
    (ha : a ∈ resp.Metadata.Indices.keys) :
    ∃ d dyn, resp.Metadata.Indices.get a = some d ∧
      resolveDynamic d.Mappings.entries = some dyn ∧
      m.get a = some (overlaid resp a (baseRecord resp.ClusterName a d dyn)) := by
  obtain ⟨d, hd⟩ := (GoMap.mem_keys_iff _ a).1 ha
  obtain ⟨dyn, hr, hg⟩ := (indexStateStatusMap_get resp m h a).2 d hd
  exact ⟨d, dyn, hd, hr, hg⟩

/-- C1: the aggregation returns a mapping whenever every dynamic setting is
absent or a string, and whenever it returns a mapping, the key set of that
mapping is exactly the key set of `Metadata.Indices`: every metadata resource
has exactly one record, whose `Index` field is its own name, both mappings have
the same number of entries, and a name outside the metadata (for instance one
that occurs only in `Blocks.Indices` or `RoutingTable.Indices`) has no
record. -/
theorem C1_records_are_the_metadata_keys (resp : clusterStateResponse) :
    (stringDynamics resp → ∃ m, indexStateStatusMap resp = some m) ∧
    ∀ m, indexStateStatusMap resp = some m →
      (∀ name, name ∈ m.keys ↔ name ∈ resp.Metadata.Indices.keys) ∧
      m.len = resp.Metadata.Indices.len ∧
      (∀ name, name ∈ resp.Metadata.Indices.keys →
        m.keys.count name = 1 ∧ ∃ r, m.get name = some r ∧ r.Index = name) ∧
      (∀ name, name ∉ resp.Metadata.Indices.keys →
        m.keys.count name = 0 ∧ m.get name = none) := by
  refine ⟨indexStateStatusMap_isSome resp, fun m h => ?_⟩
  have hk := get_isSome_iff resp m h
  refine ⟨hk, GoMap.len_eq_of_keys m _ hk, fun name hn => ⟨?_, ?_⟩, fun name hn => ⟨?_, ?_⟩⟩
  · exact List.count_eq_one_of_mem m.nodup ((hk name).2 hn)
  · obtain ⟨d, dyn, -, -, hg⟩ := record_of_mem resp m h name hn
    exact ⟨_, hg, by rw [overlaid_Index]; rfl⟩
  · exact List.count_eq_zero_of_not_mem (fun hc => hn ((hk name).1 hc))
  · exact (GoMap.get_eq_none_iff m name).2 (fun hc => hn ((hk name).1 hc))

/-- C1 on the snapshot `snapTwo`: the two metadata resources have their record
and `ghost`, listed in the blocks and in the routing table only, has none. -/
theorem C1_records_are_the_metadata_keys_witness :
    ∃ m, indexStateStatusMap snapTwo = some m ∧ m.len = 2 ∧
      (∃ r, m.get "idx-a" = some r ∧ r.Index = "idx-a") ∧
      (∃ r, m.get "idx-b" = some r ∧ r.Index = "idx-b") ∧
      snapTwo.Blocks.Indices.get "ghost" ≠ none ∧
      snapTwo.RoutingTable.Indices.get "ghost" ≠ none ∧
      m.get "ghost" = none := by
  obtain ⟨m, hm⟩ := (C1_records_are_the_metadata_keys snapTwo).1 (by
    intro e he t ht
    simp only [snapTwo, sampleResponse, sampleDetail, GoMap.empty, List.mem_cons,
      List.mem_singleton, List.not_mem_nil, or_false] at he
    rcases he with rfl | rfl <;> simp at ht)
  have h := (C1_records_are_the_metadata_keys snapTwo).2 m hm
  exact ⟨m, hm, h.2.1, (h.2.2.1 "idx-a" (by decide)).2, (h.2.2.1 "idx-b" (by decide)).2,
    by decide, by decide, (h.2.2.2 "ghost" (by decide)).2⟩

/-! ## The routing overlay -/

theorem any_isUnassignedPrimary_iff (shs : List (String × List shardsDetail)) :
    shs.any (fun sh => sh.2.any isUnassignedPrimary) = true ↔
      ∃ e ∈ shs, ∃ c ∈ e.2, c.State = "UNASSIGNED" ∧ c.Primary = true := by
  simp [List.any_eq_true, isUnassignedPrimary]

theorem any_isUnassigned_iff (shs : List (String × List shardsDetail)) :
    shs.any (fun sh => sh.2.any isUnassigned) = true ↔
      ∃ e ∈ shs, ∃ c ∈ e.2, c.State = "UNASSIGNED" := by
  simp [List.any_eq_true, isUnassigned]

/-- The colour and value of a resource of the metadata that has a routing
entry. -/
theorem routed_record (resp : clusterStateResponse) (m : GoMap IndexStateStatus)
    (h : indexStateStatusMap resp = some m) (name : String) (sh : shards)
    (hmeta : name ∈ resp.Metadata.Indices.keys)
    (hrt : resp.RoutingTable.Indices.get name = some sh) :
    ∃ r, m.get name = some r ∧ r.Color = scanShards GREEN sh.Shards.entries ∧
      r.value = if scanShards GREEN sh.Shards.entries = RED then 2
        else if scanShards GREEN sh.Shards.entries = YELLOW then 1 else 0 := by
  obtain ⟨d, dyn, -, -, hg⟩ := record_of_mem resp m h name hmeta
  exact ⟨_, hg, overlaid_routed resp name _ sh hrt rfl⟩

/-- C2: a resource of the metadata whose routing entry holds, anywhere, a copy
with state `UNASSIGNED` and `Primary = true` ends with value 2 and colour
`red`, whatever the other copies are and wherever that copy stands in the
scan. -/
theorem C2_unassigned_primary_is_red (resp : clusterStateResponse)
    (m : GoMap IndexStateStatus) (h : indexStateStatusMap resp = some m)
    (name : String) (sh : shards) (hmeta : name ∈ resp.Metadata.Indices.keys)
    (hrt : resp.RoutingTable.Indices.get name = some sh)
    (hup : ∃ e ∈ sh.Shards.entries, ∃ c ∈ e.2, c.State = "UNASSIGNED" ∧ c.Primary = true) :
    ∃ r, m.get name = some r ∧ r.value = 2 ∧ r.Color = "red" := by
  obtain ⟨r, hg, hc, hv⟩ := routed_record resp m h name sh hmeta hrt
  have hs : scanShards GREEN sh.Shards.entries = RED := by
    rw [scanShards_eq, if_neg GREEN_ne_RED,
      if_pos ((any_isUnassignedPrimary_iff _).2 hup)]
  refine ⟨r, hg, ?_, ?_⟩
  · rw [hv, if_pos hs]
  · rw [hc, hs]; rfl

/-- C2 on `snapRed`: the unassigned primary stands in the second shard, after
a started primary and an unassigned replica. -/
theorem C2_unassigned_primary_is_red_witness :
    ∃ m, indexStateStatusMap snapRed = some m ∧
      ∃ r, m.get "idx" = some r ∧ r.value = 2 ∧ r.Color = "red" := by
  obtain ⟨m, hm⟩ : ∃ m, indexStateStatusMap snapRed = some m := ⟨_, rfl⟩
  exact ⟨m, hm, C2_unassigned_primary_is_red snapRed m hm "idx" _ (by decide) rfl
    ⟨("1", [sampleCopy "UNASSIGNED" true, sampleCopy "UNASSIGNED" false]), by decide,
      sampleCopy "UNASSIGNED" true, by decide, rfl, rfl⟩⟩

/-- C3: a resource of the metadata whose routing entry holds an `UNASSIGNED`
copy, none of the `UNASSIGNED` copies being a primary, ends with value 1 and
colour `yellow`. -/
theorem C3_unassigned_replica_is_yellow (resp : clusterStateResponse)
    (m : GoMap IndexStateStatus) (h : indexStateStatusMap resp = some m)
    (name : String) (sh : shards) (hmeta : name ∈ resp.Metadata.Indices.keys)
    (hrt : resp.RoutingTable.Indices.get name = some sh)
    (hu : ∃ e ∈ sh.Shards.entries, ∃ c ∈ e.2, c.State = "UNASSIGNED")
    (hnp : ∀ e ∈ sh.Shards.entries, ∀ c ∈ e.2, c.State = "UNASSIGNED" → c.Primary = false) :
    ∃ r, m.get name = some r ∧ r.value = 1 ∧ r.Color = "yellow" := by
  obtain ⟨r, hg, hc, hv⟩ := routed_record resp m h name sh hmeta hrt
  have hno : ¬ (sh.Shards.entries.any (fun sh => sh.2.any isUnassignedPrimary) = true) := by
    rw [any_isUnassignedPrimary_iff]
    rintro ⟨e, he, c, hc, hs, hp⟩
    rw [hnp e he c hc hs] at hp
    exact Bool.false_ne_true hp
  have hs : scanShards GREEN sh.Shards.entries = YELLOW := by
    rw [scanShards_eq, if_neg GREEN_ne_RED, if_neg hno,
      if_pos ((any_isUnassigned_iff _).2 hu)]
  refine ⟨r, hg, ?_, ?_⟩
  · rw [hv, hs, if_neg YELLOW_ne_RED, if_pos rfl]
  · rw [hc, hs]; rfl

/-- C3 on `snapTwo`: the only copy of `idx-b` is an unassigned replica. -/
theorem C3_unassigned_replica_is_yellow_witness :
    ∃ m, indexStateStatusMap snapTwo = some m ∧
      ∃ r, m.get "idx-b" = some r ∧ r.value = 1 ∧ r.Color = "yellow" := by
  obtain ⟨m, hm⟩ : ∃ m, indexStateStatusMap snapTwo = some m := ⟨_, rfl⟩
  exact ⟨m, hm, C3_unassigned_replica_is_yellow snapTwo m hm "idx-b" _ (by decide) rfl
    (by decide) (by decide)⟩

/-- C4: a resource of the metadata whose routing entry holds no `UNASSIGNED`
copy (an empty shard map and empty copy lists included) ends with value 0 and
colour `green`. -/
theorem C4_all_assigned_is_green (resp : clusterStateResponse)
    (m : GoMap IndexStateStatus) (h : indexStateStatusMap resp = some m)
    (name : String) (sh : shards) (hmeta : name ∈ resp.Metadata.Indices.keys)
    (hrt : resp.RoutingTable.Indices.get name = some sh)
    (hnu : ∀ e ∈ sh.Shards.entries, ∀ c ∈ e.2, c.State ≠ "UNASSIGNED") :
    ∃ r, m.get name = some r ∧ r.value = 0 ∧ r.Color = "green" := by
  obtain ⟨r, hg, hc, hv⟩ := routed_record resp m h name sh hmeta hrt
  have hno1 : ¬ (sh.Shards.entries.any (fun sh => sh.2.any isUnassignedPrimary) = true) := by
    rw [any_isUnassignedPrimary_iff]
    rintro ⟨e, he, c, hc, hs, -⟩
    exact hnu e he c hc hs
  have hno2 : ¬ (sh.Shards.entries.any (fun sh => sh.2.any isUnassigned) = true) := by
    rw [any_isUnassigned_iff]
    rintro ⟨e, he, c, hc, hs⟩
    exact hnu e he c hc hs
  have hs : scanShards GREEN sh.Shards.entries = GREEN := by
    rw [scanShards_eq, if_neg GREEN_ne_RED, if_neg hno1, if_neg hno2]
  refine ⟨r, hg, ?_, ?_⟩
  · rw [hv, hs, if_neg GREEN_ne_RED, if_neg GREEN_ne_YELLOW]
  · rw [hc, hs]; rfl

/-- C4 on `snapGreen`: both copies of the only shard are started. -/
theorem C4_all_assigned_is_green_witness :
    ∃ m, indexStateStatusMap snapGreen = some m ∧
      ∃ r, m.get "idx" = some r ∧ r.value = 0 ∧ r.Color = "green" := by
  obtain ⟨m, hm⟩ : ∃ m, indexStateStatusMap snapGreen = some m := ⟨_, rfl⟩
  exact ⟨m, hm, C4_all_assigned_is_green snapGreen m hm "idx" _ (by decide) rfl
    (by decide)⟩

/-! ## The block overlay -/

/-- Joining the level strings of a resource's block entries with commas: a
token without a comma is found in the joined string exactly when one level
string contains it. -/
theorem contains_joined_levels (T : String) (hc : ',' ∉ T.data) (hne : T.data ≠ [])
    (es : List (String × blocksDetail)) :
    strings.Contains (strings.Join (collectLevels es []) ",") T = true ↔
      ∃ e ∈ es, ∃ l ∈ e.2.Levels, strings.Contains l T = true := by
  rw [strings.Contains_iff, infix_Join_iff T.data hc hne]
  constructor
  · rintro ⟨l, hl, hl2⟩
    obtain ⟨e, he, hle⟩ := (mem_collectLevels es l).1 hl
    exact ⟨e, he, l, hle, (strings.Contains_iff l T).2 hl2⟩
  · rintro ⟨e, he, l, hle, hl2⟩
    exact ⟨l, (mem_collectLevels es l).2 ⟨e, he, hle⟩, (strings.Contains_iff l T).1 hl2⟩

/-- A flag that starts at `FALSE` and is raised by the substring test for `T`
tells whether some level string of the resource contains `T`. -/
theorem flagIs_of_blocks (resp : clusterStateResponse) (name T : String)
    (hc : ',' ∉ T.data) (hne : T.data ≠ []) (flag : String)
    (hflag : flag = match resp.Blocks.Indices.get name with
      | none => FALSE
      | some bm =>
        if bm.len ≤ 0 then FALSE
        else if strings.Contains (strings.Join (collectLevels bm.entries []) ",") T
          then TRUE else FALSE) :
    flagIs flag (levelBlocks resp name T) := by
  have htf : TRUE ≠ "false" := by decide
  have hft : FALSE ≠ "true" := by decide
  have key : ∀ P : Prop, (P → flag = TRUE) → (¬ P → flag = FALSE) → flagIs flag P := by
    intro P h1 h2
    by_cases hP : P
    · rw [h1 hP]
      exact ⟨⟨fun _ => hP, fun _ => rfl⟩, ⟨fun hx => absurd hx htf, fun hx => absurd hP hx⟩⟩
    · rw [h2 hP]
      exact ⟨⟨fun hx => absurd hx hft, fun hx => absurd hx hP⟩, ⟨fun _ => hP, fun _ => rfl⟩⟩
  apply key
  · rintro ⟨bm, hbm, hex⟩
    rw [hbm] at hflag
    have hlen : ¬ bm.len ≤ 0 := by
      obtain ⟨e, he, -⟩ := hex
      intro hle0
      have hnil : bm.entries = [] := by simpa [GoMap.len] using hle0
      rw [hnil] at he
      exact List.not_mem_nil _ he
    rw [hflag]
    simp only [if_neg hlen, (contains_joined_levels T hc hne bm.entries).2 hex, if_true]
  · intro hno
    rw [hflag]
    cases hbm : resp.Blocks.Indices.get name with
    | none => rfl
    | some bm =>
      simp only
      by_cases hlen : bm.len ≤ 0
      · rw [if_pos hlen]
      · rw [if_neg hlen]
        have : ¬ (strings.Contains (strings.Join (collectLevels bm.entries []) ",") T = true) :=
          fun hx => hno ⟨bm, hbm, (contains_joined_levels T hc hne bm.entries).1 hx⟩
        rw [if_neg this]

/-- The four access flags of the record of a resource of the metadata. -/
theorem record_flags (resp : clusterStateResponse) (m : GoMap IndexStateStatus)
    (h : indexStateStatusMap resp = some m) (name : String)
    (hmeta : name ∈ resp.Metadata.Indices.keys) :
    ∃ r, m.get name = some r ∧
      flagIs r.Read (levelBlocks resp name READ) ∧
      flagIs r.Write (levelBlocks resp name WRITE) ∧
      flagIs r.MetadataRead (levelBlocks resp name METADATA_READ) ∧
      flagIs r.MetadataWrite (levelBlocks resp name METADATA_WRITE) := by
  obtain ⟨d, dyn, -, -, hg⟩ := record_of_mem resp m h name hmeta
  obtain ⟨st1, h1, -, -, hR, hW, hMR, hMW⟩ :=
    overlaid_blocks resp name (baseRecord resp.ClusterName name d dyn)
  refine ⟨_, hg, ?_, ?_, ?_, ?_⟩
  · apply flagIs_of_blocks resp name READ (by decide) (by decide)
    rw [hR, h1]
    cases resp.Blocks.Indices.get name with
    | none => rfl
    | some bm =>
      simp only [blockPart]
      split_ifs <;> simp_all [applyBlock_Read, baseRecord]
  · apply flagIs_of_blocks resp name WRITE (by decide) (by decide)
    rw [hW, h1]
    cases resp.Blocks.Indices.get name with
    | none => rfl
    | some bm =>
      simp only [blockPart]
      split_ifs <;> simp_all [applyBlock_Write, baseRecord]
  · apply flagIs_of_blocks resp name METADATA_READ (by decide) (by decide)
    rw [hMR, h1]
    cases resp.Blocks.Indices.get name with
    | none => rfl
    | some bm =>
      simp only [blockPart]
      split_ifs <;> simp_all [applyBlock_MetadataRead, baseRecord]
  · apply flagIs_of_blocks resp name METADATA_WRITE (by decide) (by decide)
    rw [hMW, h1]
    cases resp.Blocks.Indices.get name with
    | none => rfl
    | some bm =>
      simp only [blockPart]
      split_ifs <;> simp_all [applyBlock_MetadataWrite, baseRecord]

/-! ## Colour of a resource without routing entry -/

/-- C5 at the snapshot `snapTwo`: the resource `idx-a` is in the metadata and
not in the routing table; its record has value 0 and the empty colour, which is
not `green`. -/
theorem C5_color_unset_without_routing :
    snapTwo.Metadata.Indices.get "idx-a" ≠ none ∧
    snapTwo.RoutingTable.Indices.get "idx-a" = none ∧
    ∃ m, indexStateStatusMap snapTwo = some m ∧
      ∃ r, m.get "idx-a" = some r ∧ r.value = 0 ∧ r.Color = "" ∧ r.Color ≠ "green" := by
  refine ⟨by decide, by decide, _, rfl, _, rfl, ?_, ?_, ?_⟩ <;> decide

/-! ## Access flags -/

/-- C6: for a resource of the metadata, each of the four access flags of its
record is `"true"` exactly when some level string of some block entry of that
resource contains the flag's token as a substring, and `"false"` otherwise; and
for each of the four tokens, the comma-joined level strings contain the token
exactly when one single level string does. -/
theorem C6_flags_by_substring (resp : clusterStateResponse) (m : GoMap IndexStateStatus)
    (h : indexStateStatusMap resp = some m) (name : String)
    (hmeta : name ∈ resp.Metadata.Indices.keys) :
    (∃ r, m.get name = some r ∧
      flagIs r.Read (levelBlocks resp name "read") ∧
      flagIs r.Write (levelBlocks resp name "write") ∧
      flagIs r.MetadataRead (levelBlocks resp name "metadata_read") ∧
      flagIs r.MetadataWrite (levelBlocks resp name "metadata_write")) ∧
    ∀ T ∈ ["read", "write", "metadata_read", "metadata_write"],
      ∀ es : List (String × blocksDetail),
        strings.Contains (strings.Join (collectLevels es []) ",") T = true ↔
          ∃ e ∈ es, ∃ l ∈ e.2.Levels, strings.Contains l T = true := by
  refine ⟨record_flags resp m h name hmeta, fun T hT es => ?_⟩
  simp only [List.mem_cons, List.mem_singleton, List.not_mem_nil, or_false] at hT
  rcases hT with rfl | rfl | rfl | rfl <;>
    exact contains_joined_levels _ (by decide) (by decide) es

/-- C6 on `snapTwo`: `idx-b` has one block entry with the levels `read` and
`write`. -/
theorem C6_flags_by_substring_witness :
    ∃ m, indexStateStatusMap snapTwo = some m ∧
      ∃ r, m.get "idx-b" = some r ∧ r.Read = "true" ∧ r.Write = "true" ∧
        r.MetadataRead = "false" ∧ r.MetadataWrite = "false" := by
  obtain ⟨m, hm⟩ : ∃ m, indexStateStatusMap snapTwo = some m := ⟨_, rfl⟩
  obtain ⟨r, hr, h1, h2, h3, h4⟩ := (C6_flags_by_substring snapTwo m hm "idx-b" (by decide)).1
  have hget : snapTwo.Blocks.Indices.get "idx-b" =
      some ⟨[("8", ⟨"read-only", false, ["read", "write"]⟩)], by decide⟩ := by decide
  have hpos : ∀ T, T = "read" ∨ T = "write" → levelBlocks snapTwo "idx-b" T := by
    intro T hT
    refine ⟨_, hget, ("8", ⟨"read-only", false, ["read", "write"]⟩), by decide, T, ?_, ?_⟩
    · rcases hT with rfl | rfl <;> decide
    · rcases hT with rfl | rfl <;> decide
  have hneg : ∀ T, T = "metadata_read" ∨ T = "metadata_write" →
      ¬ levelBlocks snapTwo "idx-b" T := by
    rintro T hT ⟨bm, hbm, e, he, l, hl, hc⟩
    rw [hget, Option.some.injEq] at hbm
    subst hbm
    simp only [List.mem_singleton] at he
    subst he
    simp only [List.mem_cons, List.mem_singleton, List.not_mem_nil, or_false] at hl
    rcases hT with rfl | rfl <;> rcases hl with rfl | rfl <;> revert hc <;> decide
  exact ⟨m, hm, r, hr, h1.1.2 (hpos _ (Or.inl rfl)), h2.1.2 (hpos _ (Or.inr rfl)),
    h3.2.2 (hneg _ (Or.inl rfl)), h4.2.2 (hneg _ (Or.inr rfl))⟩

/-- A level string that contains `metadata_read` contains `read`, and one that
contains `metadata_write` contains `write`. -/
theorem levelBlocks_plain (resp : clusterStateResponse) (name : String) :
    (levelBlocks resp name "metadata_read" → levelBlocks resp name "read") ∧
    (levelBlocks resp name "metadata_write" → levelBlocks resp name "write") := by
  have hr : ("read" : String).data <:+: ("metadata_read" : String).data :=
    ⟨("metadata_" : String).data, [], rfl⟩
  have hw : ("write" : String).data <:+: ("metadata_write" : String).data :=
    ⟨("metadata_" : String).data, [], rfl⟩
  constructor
  · rintro ⟨bm, hbm, e, he, l, hl, hc⟩
    exact ⟨bm, hbm, e, he, l, hl,
      (strings.Contains_iff l _).2 (hr.trans ((strings.Contains_iff l _).1 hc))⟩
  · rintro ⟨bm, hbm, e, he, l, hl, hc⟩
    exact ⟨bm, hbm, e, he, l, hl,
      (strings.Contains_iff l _).2 (hw.trans ((strings.Contains_iff l _).1 hc))⟩

/-- The level strings of a resource with a single block entry. -/
theorem levelBlocks_single (resp : clusterStateResponse) (name T : String)
    (bm : GoMap blocksDetail) (k : String) (bd : blocksDetail)
    (hbm : resp.Blocks.Indices.get name = some bm) (hone : bm.entries = [(k, bd)]) :
    levelBlocks resp name T ↔ ∃ l ∈ bd.Levels, strings.Contains l T = true := by
  constructor
  · rintro ⟨bm', hbm', e, he, l, hl, hc⟩
    rw [hbm, Option.some.injEq] at hbm'
    subst hbm'
    rw [hone, List.mem_singleton] at he
    subst he
    exact ⟨l, hl, hc⟩
  · rintro ⟨l, hl, hc⟩
    exact ⟨bm, hbm, (k, bd), by rw [hone]; exact List.mem_singleton_self _, l, hl, hc⟩

/-- C7: in every record, `MetadataRead = "true"` implies `Read = "true"` and
`MetadataWrite = "true"` implies `Write = "true"`; and a resource of the
metadata whose only block entry has the levels `["metadata_write"]` ends with
`MetadataWrite = "true"`, `Write = "true"`, `Read = "false"` and
`MetadataRead = "false"`. -/
theorem C7_metadata_flag_implies_plain_flag (resp : clusterStateResponse)
    (m : GoMap IndexStateStatus) (h : indexStateStatusMap resp = some m) :
    (∀ name r, m.get name = some r →
      (r.MetadataRead = "true" → r.Read = "true") ∧
      (r.MetadataWrite = "true" → r.Write = "true")) ∧
    (∀ name bm k bd, name ∈ resp.Metadata.Indices.keys →
      resp.Blocks.Indices.get name = some bm → bm.entries = [(k, bd)] →
      bd.Levels = ["metadata_write"] →
      ∃ r, m.get name = some r ∧ r.MetadataWrite = "true" ∧ r.Write = "true" ∧
        r.Read = "false" ∧ r.MetadataRead = "false") := by
  constructor
  · intro name r hr
    have hmeta : name ∈ resp.Metadata.Indices.keys :=
      (get_isSome_iff resp m h name).1 ((GoMap.mem_keys_iff m name).2 ⟨r, hr⟩)
    obtain ⟨r', hr', h1, h2, h3, h4⟩ := record_flags resp m h name hmeta
    rw [hr, Option.some.injEq] at hr'
    subst hr'
    exact ⟨fun hx => h1.1.2 ((levelBlocks_plain resp name).1 (h3.1.1 hx)),
      fun hx => h2.1.2 ((levelBlocks_plain resp name).2 (h4.1.1 hx))⟩
  · intro name bm k bd hmeta hbm hone hlv
    obtain ⟨r, hr, h1, h2, h3, h4⟩ := record_flags resp m h name hmeta
    have key : ∀ T, levelBlocks resp name T ↔ strings.Contains "metadata_write" T = true := by
      intro T
      rw [levelBlocks_single resp name T bm k bd hbm hone, hlv]
      simp
    exact ⟨r, hr, h4.1.2 ((key _).2 (by decide)), h2.1.2 ((key _).2 (by decide)),
      h1.2.2 (fun hx => absurd ((key _).1 hx) (by decide)),
      h3.2.2 (fun hx => absurd ((key _).1 hx) (by decide))⟩

/-- C7 on `snapMetadataWrite`, whose only block entry has the single level
`metadata_write`. -/
theorem C7_metadata_flag_implies_plain_flag_witness :
    ∃ m, indexStateStatusMap snapMetadataWrite = some m ∧
      ∃ r, m.get "idx" = some r ∧ r.MetadataWrite = "true" ∧ r.Write = "true" ∧
        r.Read = "false" ∧ r.MetadataRead = "false" := by
  obtain ⟨m, hm⟩ : ∃ m, indexStateStatusMap snapMetadataWrite = some m := ⟨_, rfl⟩
  exact ⟨m, hm, (C7_metadata_flag_implies_plain_flag snapMetadataWrite m hm).2 "idx" _ "9"
    ⟨"metadata blocked", false, ["metadata_write"]⟩ (by decide) rfl rfl rfl⟩

/-- C8: a resource of the metadata that is absent from `Blocks.Indices`, or
present there with an empty map of block entries, has its four access flags at
`"false"`. -/
theorem C8_no_block_entries_all_flags_false (resp : clusterStateResponse)
    (m : GoMap IndexStateStatus) (h : indexStateStatusMap resp = some m) (name : String)
    (hmeta : name ∈ resp.Metadata.Indices.keys)
    (hb : resp.Blocks.Indices.get name = none ∨
      ∃ bm, resp.Blocks.Indices.get name = some bm ∧ bm.entries = []) :
    ∃ r, m.get name = some r ∧ r.Read = "false" ∧ r.Write = "false" ∧
      r.MetadataRead = "false" ∧ r.MetadataWrite = "false" := by
  obtain ⟨r, hr, h1, h2, h3, h4⟩ := record_flags resp m h name hmeta
  have hno : ∀ T, ¬ levelBlocks resp name T := by
    rintro T ⟨bm, hbm, e, he, -⟩
    rcases hb with hb | ⟨bm', hbm', hnil⟩
    · rw [hb] at hbm
      exact Option.noConfusion hbm
    · rw [hbm, Option.some.injEq] at hbm'
      subst hbm'
      rw [hnil] at he
      exact List.not_mem_nil _ he
  exact ⟨r, hr, h1.2.2 (hno _), h2.2.2 (hno _), h3.2.2 (hno _), h4.2.2 (hno _)⟩

/-- C8 on `snapTwo`: `idx-a` is absent from the blocks. -/
theorem C8_no_block_entries_all_flags_false_witness :
    ∃ m, indexStateStatusMap snapTwo = some m ∧
      ∃ r, m.get "idx-a" = some r ∧ r.Read = "false" ∧ r.Write = "false" ∧
        r.MetadataRead = "false" ∧ r.MetadataWrite = "false" := by
  obtain ⟨m, hm⟩ : ∃ m, indexStateStatusMap snapTwo = some m := ⟨_, rfl⟩
  exact ⟨m, hm, C8_no_block_entries_all_flags_false snapTwo m hm "idx-a" (by decide)
    (Or.inl (by decide))⟩

/-! ## The dynamic setting -/

/-- The `Dynamic` field of a record that was built: the scan of the type
mappings of a resource returns whenever every dynamic setting is absent or a
string; and whenever the aggregation returns a mapping, the `Dynamic` field of
the resource's record is the first dynamic value, in scanning order, that is
present and a non-empty string, and `"true"` when there is no such value. -/
theorem record_Dynamic_of_built_mapping (resp : clusterStateResponse) (name : String)
    (d : indexDetail) (hd : resp.Metadata.Indices.get name = some d) :
    ((∀ t ∈ d.Mappings.entries, t.2.Dynamic.isStringOrNil = true) →
      (resolveDynamic d.Mappings.entries).isSome = true) ∧
    ∀ m, indexStateStatusMap resp = some m →
      ∃ r, m.get name = some r ∧
        r.Dynamic = (firstDynamic d.Mappings.entries).getD "true" ∧
        (d.Mappings.entries = [] → r.Dynamic = "true") ∧
        ((∀ t ∈ d.Mappings.entries, t.2.Dynamic = Iface.nil ∨ t.2.Dynamic = Iface.str "") →
          r.Dynamic = "true") := by
  refine ⟨resolveDynamic_isSome _, fun m h => ?_⟩
  obtain ⟨dyn, hr, hg⟩ := (indexStateStatusMap_get resp m h name).2 d hd
  have hdyn : (overlaid resp name (baseRecord resp.ClusterName name d dyn)).Dynamic =
      (firstDynamic d.Mappings.entries).getD "true" := by
    rw [overlaid_Dynamic]
    exact resolveDynamic_eq_firstDynamic _ dyn hr
  refine ⟨_, hg, hdyn, fun hnil => ?_, fun hall => ?_⟩
  · rw [hdyn, hnil]; rfl
  · rw [hdyn]
    have : (d.Mappings.entries.filterMap (fun e => presentNonEmpty e.2)) = [] := by
      rw [List.filterMap_eq_nil_iff]
      intro t ht
      rcases hall t ht with h0 | h0 <;> simp [presentNonEmpty, h0]
    simp [firstDynamic, this]

/-- C9 at the snapshot `snapBoolThenStrict`: the type mappings of `idx` carry,
in scanning order, the boolean `false` and the string `strict`; the first
dynamic value that is present and a non-empty string is `strict`, but the scan
panics at the boolean, so no mapping and no record is built. -/
theorem C9_bool_before_first_string_panics :
    ∃ d, snapBoolThenStrict.Metadata.Indices.get "idx" = some d ∧
      d.Mappings.entries.map (fun t => t.2.Dynamic) = [Iface.bool false, Iface.str "strict"] ∧
      firstDynamic d.Mappings.entries = some "strict" ∧
      resolveDynamic d.Mappings.entries = none ∧
      indexStateStatusMap snapBoolThenStrict = none := by
  refine ⟨_, rfl, ?_, ?_, ?_, ?_⟩ <;> decide

/-! ## A dynamic setting that is not a string -/

/-- C10 at the snapshot `snapBoolDynamic`: the only dynamic setting is the
boolean `false`; the scan of the type mappings panics and no mapping is
built. -/
theorem C10_bool_dynamic_panics :
    (∃ d, snapBoolDynamic.Metadata.Indices.get "idx" = some d ∧
      d.Mappings.get "_doc" = some ⟨Iface.bool false⟩ ∧
      resolveDynamic d.Mappings.entries = none) ∧
    indexStateStatusMap snapBoolDynamic = none := by
  refine ⟨⟨_, rfl, ?_, ?_⟩, ?_⟩ <;> decide

/-! ## One poll: liveness, counters and emission -/

theorem perResource_deferred (c : ClusterState) : perResource (deferred c) = [] := rfl

theorem perResource_append (a b : List Metric) :
    perResource (a ++ b) = perResource a ++ perResource b := by
  simp [perResource]

/-- A poll whose fetch or decode fails. -/
theorem Collect_of_fetch_none (Unmarshal : List Nat → Option clusterStateResponse)
    (order : RangeOrder) (c c1 : ClusterState) (res : GetResult)
    (h : fetchAndDecodeClusterState Unmarshal
      { c with totalScrapes := c.totalScrapes + 1 } res = (c1, none)) :
    Collect Unmarshal order c res =
      { state := { c1 with up := 0 }, sent := deferred { c1 with up := 0 },
        panicked := false } := by
  simp only [Collect, h]

/-- C11: when the fetch returns a response whose status is not 200, one call
of `Collect` sets `up` to 0, sends no per-resource observation, leaves
`json_parse_failures` unchanged and raises `total_scrapes` by exactly one; the
call does not panic and sends the three process-scoped series. -/
theorem C11_non_200_status (Unmarshal : List Nat → Option clusterStateResponse)
    (order : RangeOrder) (c : ClusterState) (StatusCode : Int) (Body : ReadAllResult)
    (hcode : StatusCode ≠ 200) :
    (Collect Unmarshal order c (GetResult.response StatusCode Body)).state.up = 0 ∧
    perResource (Collect Unmarshal order c (GetResult.response StatusCode Body)).sent = [] ∧
    (Collect Unmarshal order c (GetResult.response StatusCode Body)).state.jsonParseFailures =
      c.jsonParseFailures ∧
    (Collect Unmarshal order c (GetResult.response StatusCode Body)).state.totalScrapes =
      c.totalScrapes + 1 ∧
    (Collect Unmarshal order c (GetResult.response StatusCode Body)).panicked = false ∧
    (Collect Unmarshal order c (GetResult.response StatusCode Body)).sent =
      [Metric.up 0, Metric.totalScrapes (c.totalScrapes + 1),
        Metric.jsonParseFailures c.jsonParseFailures] := by
  have hf : fetchAndDecodeClusterState Unmarshal
      { c with totalScrapes := c.totalScrapes + 1 } (GetResult.response StatusCode Body) =
      ({ c with totalScrapes := c.totalScrapes + 1 }, none) := by
    simp only [fetchAndDecodeClusterState, http.StatusOK, if_pos hcode]
  rw [Collect_of_fetch_none Unmarshal order c _ _ hf]
  exact ⟨rfl, rfl, rfl, rfl, rfl, rfl⟩

/-- C11 on a collector that has polled 7 times with 2 parse failures, for a
response with status 503. -/
theorem C11_non_200_status_witness :
    (Collect (fun _ => none) RangeOrder.listed ⟨1, 7, 2⟩
      (GetResult.response 503 (ReadAllResult.bytes []))).state = ⟨0, 8, 2⟩ ∧
    perResource (Collect (fun _ => none) RangeOrder.listed ⟨1, 7, 2⟩
      (GetResult.response 503 (ReadAllResult.bytes []))).sent = [] := by
  have h := C11_non_200_status (fun _ => none) RangeOrder.listed ⟨1, 7, 2⟩ 503
    (ReadAllResult.bytes []) (by decide)
  exact ⟨by decide, h.2.1⟩

/-- C12: when the fetch succeeds with status 200 and the payload fails JSON
decoding, one call of `Collect` sets `up` to 0, raises `json_parse_failures` and
`total_scrapes` by exactly one each and sends no per-resource observation; when
the payload decodes, it sets `up` to 1 and leaves `json_parse_failures`
unchanged. -/
theorem C12_decode_failure_and_success (Unmarshal : List Nat → Option clusterStateResponse)
    (order : RangeOrder) (c : ClusterState) (bts : List Nat) :
    (Unmarshal bts = none →
      (Collect Unmarshal order c (GetResult.response 200 (ReadAllResult.bytes bts))).state =
        { up := 0, totalScrapes := c.totalScrapes + 1,
          jsonParseFailures := c.jsonParseFailures + 1 } ∧
      perResource
        (Collect Unmarshal order c (GetResult.response 200 (ReadAllResult.bytes bts))).sent = [] ∧
      (Collect Unmarshal order c (GetResult.response 200 (ReadAllResult.bytes bts))).panicked =
        false) ∧
    (∀ csr, Unmarshal bts = some csr →
      (Collect Unmarshal order c (GetResult.response 200 (ReadAllResult.bytes bts))).state =
        { up := 1, totalScrapes := c.totalScrapes + 1,
          jsonParseFailures := c.jsonParseFailures }) := by
  constructor
  · intro hu
    have hf : fetchAndDecodeClusterState Unmarshal
        { c with totalScrapes := c.totalScrapes + 1 }
        (GetResult.response 200 (ReadAllResult.bytes bts)) =
        ({ up := c.up, totalScrapes := c.totalScrapes + 1,
           jsonParseFailures := c.jsonParseFailures + 1 }, none) := by
      simp [fetchAndDecodeClusterState, http.StatusOK, hu]
    rw [Collect_of_fetch_none Unmarshal order c _ _ hf]
    exact ⟨rfl, rfl, rfl⟩
  · intro csr hu
    have hf : fetchAndDecodeClusterState Unmarshal
        { c with totalScrapes := c.totalScrapes + 1 }
        (GetResult.response 200 (ReadAllResult.bytes bts)) =
        ({ c with totalScrapes := c.totalScrapes + 1 }, some csr) := by
      simp [fetchAndDecodeClusterState, http.StatusOK, hu]
    simp only [Collect, hf]
    cases indexStateStatusMap csr with
    | none => rfl
    | some m => rfl

/-- C12 on a payload that does not decode and on one that decodes to
`snapTwo`. -/
theorem C12_decode_failure_and_success_witness :
    (Collect (fun _ => none) RangeOrder.listed ⟨1, 7, 2⟩
      (GetResult.response 200 (ReadAllResult.bytes [123]))).state = ⟨0, 8, 3⟩ ∧
    (Collect (fun _ => some snapTwo) RangeOrder.listed ⟨0, 7, 2⟩
      (GetResult.response 200 (ReadAllResult.bytes [123]))).state = ⟨1, 8, 2⟩ :=
  ⟨((C12_decode_failure_and_success (fun _ => none) RangeOrder.listed ⟨1, 7, 2⟩ [123]).1
      rfl).1,
    (C12_decode_failure_and_success (fun _ => some snapTwo) RangeOrder.listed ⟨0, 7, 2⟩
      [123]).2 snapTwo rfl⟩

theorem emitRecord_metrics (st : IndexStateStatus) :
    emitRecord st metrics = ([observation st], false) := by
  simp [emitRecord, metrics, MustNewConstMetric, labelValues, indexStateLabels.values,
    indexStateLabels.keys, observation]

theorem emitAll_eq (l : List (String × IndexStateStatus)) :
    emitAll l = (l.map (fun e => observation e.2), false) := by
  induction l with
  | nil => rfl
  | cons e rest ih =>
    obtain ⟨k, st⟩ := e
    simp [emitAll, emitRecord_metrics, ih]

theorem perResource_observations (l : List (String × IndexStateStatus)) :
    perResource (l.map (fun e => observation e.2)) = l.map (fun e => observation e.2) := by
  induction l with
  | nil => rfl
  | cons e rest ih =>
    simp only [List.map_cons, perResource, observation, List.filter_cons_of_pos] at ih ⊢
    rw [ih]

/-- A poll whose fetch, decode and aggregation succeed. -/
theorem Collect_of_success (Unmarshal : List Nat → Option clusterStateResponse)
    (order : RangeOrder) (c : ClusterState) (bts : List Nat) (csr : clusterStateResponse)
    (m : GoMap IndexStateStatus) (hu : Unmarshal bts = some csr)
    (hm : indexStateStatusMap csr = some m) :
    Collect Unmarshal order c (GetResult.response 200 (ReadAllResult.bytes bts)) =
      { state := { up := 1, totalScrapes := c.totalScrapes + 1,
                   jsonParseFailures := c.jsonParseFailures }
        sent := (order.visit m).map (fun e => observation e.2) ++
          [Metric.up 1, Metric.totalScrapes (c.totalScrapes + 1),
            Metric.jsonParseFailures c.jsonParseFailures]
        panicked := false } := by
  have hf : fetchAndDecodeClusterState Unmarshal
      { c with totalScrapes := c.totalScrapes + 1 }
      (GetResult.response 200 (ReadAllResult.bytes bts)) =
      ({ c with totalScrapes := c.totalScrapes + 1 }, some csr) := by
    simp [fetchAndDecodeClusterState, http.StatusOK, hu]
  simp only [Collect, hf, hm, emitAll_eq]
  rfl

/-- C13: on a poll whose fetch, decode and aggregation succeed, `Collect` does
not panic and sends exactly one per-resource observation for each record of the
finished mapping, in the order in which the mapping is visited; the metric
value is the record's value, and the label values are 12 in number, as many as
the label keys, and stand position by position for `index`, `color`, `state`,
`dynamic`, `creation_date`, `number_of_shards`, `number_of_replicas`, `read`,
`write`, `metadata_read`, `metadata_write`, `es_cluster`. -/
theorem C13_one_observation_per_record (Unmarshal : List Nat → Option clusterStateResponse)
    (order : RangeOrder) (c : ClusterState) (bts : List Nat) (csr : clusterStateResponse)
    (m : GoMap IndexStateStatus) (hu : Unmarshal bts = some csr)
    (hm : indexStateStatusMap csr = some m) :
    (Collect Unmarshal order c (GetResult.response 200 (ReadAllResult.bytes bts))).panicked =
      false ∧
    perResource
      (Collect Unmarshal order c (GetResult.response 200 (ReadAllResult.bytes bts))).sent =
      (order.visit m).map (fun e => observation e.2) ∧
    (perResource
      (Collect Unmarshal order c (GetResult.response 200 (ReadAllResult.bytes bts))).sent).Perm
      (m.entries.map (fun e => observation e.2)) ∧
    (perResource
      (Collect Unmarshal order c (GetResult.response 200 (ReadAllResult.bytes bts))).sent).length
      = m.len ∧
    ∀ st : IndexStateStatus,
      observation st = Metric.const { Name := "status", LabelKeys := indexStateLabels.keys }
        st.value (labelValues st) ∧
      (labelValues st).length = 12 ∧ indexStateLabels.keys.length = 12 ∧
      List.zip indexStateLabels.keys (labelValues st) =
        [("index", st.Index), ("color", st.Color), ("state", st.State),
          ("dynamic", st.Dynamic), ("creation_date", st.CreationDate),
          ("number_of_shards", st.NumberOfShards),
          ("number_of_replicas", st.NumberOfReplicas), ("read", st.Read),
          ("write", st.Write), ("metadata_read", st.MetadataRead),
          ("metadata_write", st.MetadataWrite), ("es_cluster", st.EsCluster)] := by
  rw [Collect_of_success Unmarshal order c bts csr m hu hm]
  have hper : perResource ((order.visit m).map (fun e => observation e.2) ++
      [Metric.up 1, Metric.totalScrapes (c.totalScrapes + 1),
        Metric.jsonParseFailures c.jsonParseFailures]) =
      (order.visit m).map (fun e => observation e.2) := by
    rw [perResource_append, perResource_observations]
    exact List.append_nil _
  refine ⟨rfl, hper, ?_, ?_, fun st => ⟨rfl, rfl, rfl, rfl⟩⟩
  · simp only [hper]
    exact (order.perm m).map _
  · simp only [hper, List.length_map]
    exact (order.perm m).length_eq

/-- C13 on a payload that decodes to `snapTwo`: two observations, for `idx-a`
and for `idx-b`. -/
theorem C13_one_observation_per_record_witness :
    perResource (Collect (fun _ => some snapTwo) RangeOrder.listed ⟨0, 7, 2⟩
      (GetResult.response 200 (ReadAllResult.bytes [123]))).sent =
      [Metric.const ⟨"status", indexStateLabels.keys⟩ 0
        ["idx-a", "", "open", "true", "1600000000000", "1", "0", "false", "false",
          "false", "false", "es"],
       Metric.const ⟨"status", indexStateLabels.keys⟩ 1
        ["idx-b", "yellow", "open", "true", "1600000000000", "1", "0", "true", "true",
          "false", "false", "es"]] := by
  obtain ⟨m, hm⟩ : ∃ m, indexStateStatusMap snapTwo = some m := ⟨_, rfl⟩
  have h := (C13_one_observation_per_record (fun _ => some snapTwo) RangeOrder.listed
    ⟨0, 7, 2⟩ [123] snapTwo m rfl hm).2.1
  rw [h]
  have : m = (indexStateStatusMap snapTwo).get (by decide) := by
    simp [hm]
  subst this
  decide

/-! ## What the decode-failure counter counts -/

/-- C17 at a response with status 200 whose body cannot be read: no payload is
read and no JSON is decoded, yet the poll raises `json_parse_failures` from 0
to 1. -/
theorem C17_body_read_error_is_counted :
    (Collect (fun _ => none) RangeOrder.listed ⟨0, 0, 0⟩
      (GetResult.response 200 ReadAllResult.err)).state.jsonParseFailures = 1 ∧
    ¬ ((Collect (fun _ => none) RangeOrder.listed ⟨0, 0, 0⟩
      (GetResult.response 200 ReadAllResult.err)).state.jsonParseFailures =
        (ClusterState.mk 0 0 0).jsonParseFailures) := by
  constructor <;> decide

/-- What one poll does to `json_parse_failures`: a connection error of the HTTP
client and a status other than 200 leave it unchanged; with status 200 it is
raised by exactly one when reading the body fails and when the JSON decoding of
the payload read fails, and left unchanged when the payload decodes. -/
theorem jsonParseFailures_after_Collect
    (Unmarshal : List Nat → Option clusterStateResponse) (order : RangeOrder)
    (c : ClusterState) :
    (Collect Unmarshal order c GetResult.err).state.jsonParseFailures = c.jsonParseFailures ∧
    (∀ StatusCode Body, StatusCode ≠ 200 →
      (Collect Unmarshal order c (GetResult.response StatusCode Body)).state.jsonParseFailures
        = c.jsonParseFailures) ∧
    (Collect Unmarshal order c
      (GetResult.response 200 ReadAllResult.err)).state.jsonParseFailures =
        c.jsonParseFailures + 1 ∧
    (∀ bts, Unmarshal bts = none →
      (Collect Unmarshal order c
        (GetResult.response 200 (ReadAllResult.bytes bts))).state.jsonParseFailures =
          c.jsonParseFailures + 1) ∧
    (∀ bts csr, Unmarshal bts = some csr →
      (Collect Unmarshal order c
        (GetResult.response 200 (ReadAllResult.bytes bts))).state.jsonParseFailures =
          c.jsonParseFailures) := by
  refine ⟨rfl, fun StatusCode Body hcode => ?_, rfl, fun bts hu => ?_, fun bts csr hu => ?_⟩
  · have hf : fetchAndDecodeClusterState Unmarshal
        { c with totalScrapes := c.totalScrapes + 1 } (GetResult.response StatusCode Body) =
        ({ c with totalScrapes := c.totalScrapes + 1 }, none) := by
      simp only [fetchAndDecodeClusterState, http.StatusOK, if_pos hcode]
    rw [Collect_of_fetch_none Unmarshal order c _ _ hf]
  · have hf : fetchAndDecodeClusterState Unmarshal
        { c with totalScrapes := c.totalScrapes + 1 }
        (GetResult.response 200 (ReadAllResult.bytes bts)) =
        ({ up := c.up, totalScrapes := c.totalScrapes + 1,
           jsonParseFailures := c.jsonParseFailures + 1 }, none) := by
      simp [fetchAndDecodeClusterState, http.StatusOK, hu]
    rw [Collect_of_fetch_none Unmarshal order c _ _ hf]
  · have hf : fetchAndDecodeClusterState Unmarshal
        { c with totalScrapes := c.totalScrapes + 1 }
        (GetResult.response 200 (ReadAllResult.bytes bts)) =
        ({ c with totalScrapes := c.totalScrapes + 1 }, some csr) := by
      simp [fetchAndDecodeClusterState, http.StatusOK, hu]
    simp only [Collect, hf]
    cases indexStateStatusMap csr with
    | none => rfl
    | some m => rfl

/-! ## The scenario with two resources -/

/-- C14: in a snapshot whose metadata holds `idx-a` and `idx-b`, with no
blocks and no routing for `idx-a`, one block entry of levels `read`, `write` for
`idx-b` and a routing entry for `idx-b` with one copy of state `UNASSIGNED` and
`Primary = false`, the aggregation yields exactly two records: `idx-a` with
value 0 and the four access flags `"false"`; `idx-b` with value 1,
`Read = "true"`, `Write = "true"`, `MetadataRead = "false"` and
`MetadataWrite = "false"`. -/
theorem C14_two_resource_scenario (resp : clusterStateResponse) (m : GoMap IndexStateStatus)
    (h : indexStateStatusMap resp = some m)
    (hkeys : ∀ name, name ∈ resp.Metadata.Indices.keys ↔ name = "idx-a" ∨ name = "idx-b")
    (hba : resp.Blocks.Indices.get "idx-a" = none)
    (hra : resp.RoutingTable.Indices.get "idx-a" = none)
    (bm : GoMap blocksDetail) (k : String) (bd : blocksDetail)
    (hbb : resp.Blocks.Indices.get "idx-b" = some bm) (hbm : bm.entries = [(k, bd)])
    (hlv : bd.Levels = ["read", "write"])
    (sh : shards) (n : String) (c : shardsDetail)
    (hrb : resp.RoutingTable.Indices.get "idx-b" = some sh)
    (hsh : sh.Shards.entries = [(n, [c])]) (hc : c.State = "UNASSIGNED")
    (hp : c.Primary = false) :
    m.len = 2 ∧ (∀ name, name ∈ m.keys ↔ name = "idx-a" ∨ name = "idx-b") ∧
    (∃ ra, m.get "idx-a" = some ra ∧ ra.value = 0 ∧ ra.Read = "false" ∧ ra.Write = "false" ∧
      ra.MetadataRead = "false" ∧ ra.MetadataWrite = "false") ∧
    (∃ rb, m.get "idx-b" = some rb ∧ rb.value = 1 ∧ rb.Read = "true" ∧ rb.Write = "true" ∧
      rb.MetadataRead = "false" ∧ rb.MetadataWrite = "false") := by
  have hk : ∀ name, name ∈ m.keys ↔ name = "idx-a" ∨ name = "idx-b" := fun name =>
    (get_isSome_iff resp m h name).trans (hkeys name)
  have ha : "idx-a" ∈ resp.Metadata.Indices.keys := (hkeys _).2 (Or.inl rfl)
  have hb : "idx-b" ∈ resp.Metadata.Indices.keys := (hkeys _).2 (Or.inr rfl)
  refine ⟨?_, hk, ?_, ?_⟩
  · have hp2 : m.keys.Perm ["idx-a", "idx-b"] :=
      (List.perm_ext_iff_of_nodup m.nodup (by decide)).2 (fun a => by
        have := hk a
        simpa [GoMap.keys] using this)
    have := hp2.length_eq
    simpa [GoMap.keys, GoMap.len] using this
  · obtain ⟨r, hr, h1, h2, h3, h4⟩ := record_flags resp m h "idx-a" ha
    have hno : ∀ T, ¬ levelBlocks resp "idx-a" T := by
      rintro T ⟨bm0, hbm0, -⟩
      rw [hba] at hbm0
      exact Option.noConfusion hbm0
    obtain ⟨d, dyn, -, -, hg⟩ := record_of_mem resp m h "idx-a" ha
    have hv := (overlaid_unrouted resp "idx-a" (baseRecord resp.ClusterName "idx-a" d dyn)
      hra).2
    rw [hr, Option.some.injEq] at hg
    subst hg
    exact ⟨_, hr, hv, h1.2.2 (hno _), h2.2.2 (hno _), h3.2.2 (hno _), h4.2.2 (hno _)⟩
  · obtain ⟨r, hr, h1, h2, h3, h4⟩ := record_flags resp m h "idx-b" hb
    have key : ∀ T, levelBlocks resp "idx-b" T ↔
        (strings.Contains "read" T = true ∨ strings.Contains "write" T = true) := by
      intro T
      rw [levelBlocks_single resp "idx-b" T bm k bd hbb hbm, hlv]
      simp
    obtain ⟨r', hr', -, hv⟩ := routed_record resp m h "idx-b" sh hb hrb
    rw [hr, Option.some.injEq] at hr'
    subst hr'
    have hs : scanShards GREEN sh.Shards.entries = YELLOW := by
      rw [hsh]
      simp [scanShards, scanCopies, hc, hp, GREEN_ne_RED]
    rw [hs, if_neg YELLOW_ne_RED, if_pos rfl] at hv
    exact ⟨_, hr, hv, h1.1.2 ((key _).2 (by decide)), h2.1.2 ((key _).2 (by decide)),
      h3.2.2 (fun hx => absurd ((key _).1 hx) (by decide)),
      h4.2.2 (fun hx => absurd ((key _).1 hx) (by decide))⟩

/-- C14 on the snapshot `snapScenario`. -/
theorem C14_two_resource_scenario_witness :
    ∃ m, indexStateStatusMap snapScenario = some m ∧ m.len = 2 ∧
      (∃ ra, m.get "idx-a" = some ra ∧ ra.value = 0 ∧ ra.Read = "false" ∧
        ra.Write = "false" ∧ ra.MetadataRead = "false" ∧ ra.MetadataWrite = "false") ∧
      (∃ rb, m.get "idx-b" = some rb ∧ rb.value = 1 ∧ rb.Read = "true" ∧
        rb.Write = "true" ∧ rb.MetadataRead = "false" ∧ rb.MetadataWrite = "false") := by
  obtain ⟨m, hm⟩ : ∃ m, indexStateStatusMap snapScenario = some m := ⟨_, rfl⟩
  have h := C14_two_resource_scenario snapScenario m hm
    (fun name => by
      simp [snapScenario, sampleResponse, GoMap.keys])
    (by decide) (by decide) _ "8" ⟨"read-only", false, ["read", "write"]⟩ rfl rfl rfl
    _ "0" (sampleCopy "UNASSIGNED" false) rfl rfl rfl rfl
  exact ⟨m, hm, h.1, h.2.2.1, h.2.2.2⟩

/-! ## Order of the routing scan -/

theorem any_copies (p : shardsDetail → Bool) (shs : List (String × List shardsDetail)) :
    shs.any (fun sh => sh.2.any p) = (copies shs).any p := by
  simp [copies, List.any_flatMap]

theorem any_eq_of_perm (p : shardsDetail → Bool) {l l' : List shardsDetail}
    (h : l.Perm l') : l.any p = l'.any p := by
  rw [Bool.eq_iff_iff, List.any_eq_true, List.any_eq_true]
  exact ⟨fun ⟨x, hx, hp⟩ => ⟨x, h.mem_iff.1 hx, hp⟩, fun ⟨x, hx, hp⟩ => ⟨x, h.mem_iff.2 hx, hp⟩⟩

/-- The nested scan with its labelled break ends with the colour of one scan
over all copies in scanning order. -/
theorem scanShards_eq_scanCopies (color : String) (shs : List (String × List shardsDetail)) :
    scanShards color shs = (scanCopies color (copies shs)).1 := by
  rw [scanShards_eq, scanCopies_fst, any_copies, any_copies]

/-- The colour of the scan depends on the copies only, not on their order. -/
theorem scanShards_perm (shs shs' : List (String × List shardsDetail))
    (h : (copies shs).Perm (copies shs')) :
    scanShards GREEN shs = scanShards GREEN shs' := by
  rw [scanShards_eq, scanShards_eq, any_copies, any_copies, any_copies, any_copies,
    any_eq_of_perm _ h, any_eq_of_perm _ h]

/-- Visiting the shards in another order rearranges the copies. -/
theorem copies_perm_of_shards_perm (shs shs' : List (String × List shardsDetail))
    (h : shs.Perm shs') : (copies shs).Perm (copies shs') :=
  List.Perm.flatMap_right _ h

/-- Rearranging the copies inside each shard rearranges the copies. -/
theorem copies_perm_of_copies_perm (shs shs' : List (String × List shardsDetail))
    (h : List.Forall₂ (fun a b => a.2.Perm b.2) shs shs') :
    (copies shs).Perm (copies shs') := by
  induction h with
  | nil => exact List.Perm.refl _
  | cons hab _ ih =>
    simp only [copies, List.flatMap_cons] at ih ⊢
    exact List.Perm.append hab ih

/-- C15: for a resource of the metadata, two routing entries with the same
copies, scanned in any two orders of the shards and of the copies inside the
shards, give the same final value and colour. -/
theorem C15_scan_order_invariance (resp resp' : clusterStateResponse)
    (m m' : GoMap IndexStateStatus) (h : indexStateStatusMap resp = some m)
    (h' : indexStateStatusMap resp' = some m') (name : String) (sh sh' : shards)
    (hmeta : name ∈ resp.Metadata.Indices.keys) (hmeta' : name ∈ resp'.Metadata.Indices.keys)
    (hrt : resp.RoutingTable.Indices.get name = some sh)
    (hrt' : resp'.RoutingTable.Indices.get name = some sh')
    (hperm : (copies sh.Shards.entries).Perm (copies sh'.Shards.entries)) :
    scanShards GREEN sh.Shards.entries = scanShards GREEN sh'.Shards.entries ∧
    ∃ r r', m.get name = some r ∧ m'.get name = some r' ∧
      r.value = r'.value ∧ r.Color = r'.Color := by
  have hs := scanShards_perm _ _ hperm
  obtain ⟨r, hr, hc, hv⟩ := routed_record resp m h name sh hmeta hrt
  obtain ⟨r', hr', hc', hv'⟩ := routed_record resp' m' h' name sh' hmeta' hrt'
  exact ⟨hs, r, r', hr, hr', by rw [hv, hv', hs], by rw [hc, hc', hs]⟩

/-- C15 on `snapRed` and `snapRedReordered`, which hold the same copies with
the shards and the copies of each shard in the other order. -/
theorem C15_scan_order_invariance_witness :
    ∃ m m', indexStateStatusMap snapRed = some m ∧
      indexStateStatusMap snapRedReordered = some m' ∧
      ∃ r r', m.get "idx" = some r ∧ m'.get "idx" = some r' ∧
        r.value = r'.value ∧ r.Color = r'.Color := by
  obtain ⟨m, hm⟩ : ∃ m, indexStateStatusMap snapRed = some m := ⟨_, rfl⟩
  obtain ⟨m', hm'⟩ : ∃ m, indexStateStatusMap snapRedReordered = some m := ⟨_, rfl⟩
  exact ⟨m, m', hm, hm', (C15_scan_order_invariance snapRed snapRedReordered m m' hm hm'
    "idx" _ _ (by decide) (by decide) rfl rfl (by decide)).2⟩

/-! ## Early exit against a full scan -/

theorem severity_eq (color : String) :
    severity color = if color = RED then 2 else if color = YELLOW then 1 else 0 := by
  rw [severity, applyColor_value]

/-- The running maximum over the copies of one shard. -/
theorem foldl_copyLevel (ds : List shardsDetail) (acc : Nat) :
    ds.foldl (fun acc c => max acc (copyLevel c)) acc =
      max acc (if ds.any isUnassignedPrimary then 2 else if ds.any isUnassigned then 1 else 0) := by
  induction ds generalizing acc with
  | nil => simp
  | cons d rest ih =>
    rw [List.foldl_cons, ih]
    by_cases hu : d.State = "UNASSIGNED"
    · cases hp : d.Primary
      · cases h1 : rest.any isUnassignedPrimary <;> cases h2 : rest.any isUnassigned <;>
          simp [copyLevel, isUnassigned, isUnassignedPrimary, hu, hp, h1, h2] <;> omega
      · cases h1 : rest.any isUnassignedPrimary <;> cases h2 : rest.any isUnassigned <;>
          simp [copyLevel, isUnassigned, isUnassignedPrimary, hu, hp, h1, h2]
    · cases h1 : rest.any isUnassignedPrimary <;> cases h2 : rest.any isUnassigned <;>
        simp [copyLevel, isUnassigned, isUnassignedPrimary, hu, h1, h2]

/-- The running maximum over all shards. -/
theorem foldl_fullScan (shs : List (String × List shardsDetail)) (acc : Nat) :
    shs.foldl (fun acc sh => sh.2.foldl (fun acc c => max acc (copyLevel c)) acc) acc =
      max acc (if shs.any (fun sh => sh.2.any isUnassignedPrimary) then 2
        else if shs.any (fun sh => sh.2.any isUnassigned) then 1 else 0) := by
  induction shs generalizing acc with
  | nil => simp
  | cons sh rest ih =>
    rw [List.foldl_cons, ih, foldl_copyLevel]
    cases h1 : sh.2.any isUnassignedPrimary <;> cases h2 : sh.2.any isUnassigned <;>
      cases h3 : rest.any (fun sh => sh.2.any isUnassignedPrimary) <;>
      cases h4 : rest.any (fun sh => sh.2.any isUnassigned) <;>
      simp [h1, h2, h3, h4] <;> omega

/-- The value of the early-exit scan is the running maximum of the full
scan. -/
theorem severity_scanShards (shs : List (String × List shardsDetail)) :
    severity (scanShards GREEN shs) = fullScan shs := by
  rw [fullScan, foldl_fullScan, severity_eq, scanShards_eq, if_neg GREEN_ne_RED]
  cases h1 : shs.any (fun sh => sh.2.any isUnassignedPrimary) <;>
    cases h2 : shs.any (fun sh => sh.2.any isUnassigned) <;>
    simp [YELLOW_ne_RED, GREEN_ne_RED, GREEN_ne_YELLOW]

/-- The value after a part of the copies never exceeds the value after
all of them. -/
theorem severity_scanCopies_prefix (p l : List shardsDetail) (h : p <+: l) :
    severity (scanCopies GREEN p).1 ≤ severity (scanCopies GREEN l).1 := by
  obtain ⟨q, rfl⟩ := h
  rw [scanCopies_fst, scanCopies_fst, if_neg GREEN_ne_RED, if_neg GREEN_ne_RED,
    List.any_append, List.any_append]
  cases h1 : p.any isUnassignedPrimary <;> cases h2 : p.any isUnassigned <;>
    cases h3 : q.any isUnassignedPrimary <;> cases h4 : q.any isUnassigned <;>
    simp [severity_eq, YELLOW_ne_RED, GREEN_ne_RED, GREEN_ne_YELLOW]

/-- C16: for every routing entry, the value given by the early-exit scan of
`Collect` is the value of a full scan without early exit that keeps a running
maximum of the levels of all copies (0 if not `UNASSIGNED`, 1 for an unassigned
replica, 2 for an unassigned primary); and the value after scanning any prefix
of the copies is never greater than the final value. -/
theorem C16_early_exit_equals_full_scan (shs : List (String × List shardsDetail)) :
    severity (scanShards GREEN shs) = fullScan shs ∧
    (∀ st : IndexStateStatus, st.value = 0 →
      (applyColor (scanShards GREEN shs) st).value = fullScan shs) ∧
    (∀ p, p <+: copies shs →
      severity (scanCopies GREEN p).1 ≤ severity (scanShards GREEN shs)) := by
  refine ⟨severity_scanShards shs, fun st hst => ?_, fun p hp => ?_⟩
  · rw [← severity_scanShards, severity_eq, applyColor_value, hst]
  · rw [scanShards_eq_scanCopies]
    exact severity_scanCopies_prefix p _ hp

/-- C16 on the routing entry of `snapRed`: the early-exit scan stops at the
unassigned primary of the second shard, and the full scan also ends at 2; after
the first shard alone the value is 1. -/
theorem C16_early_exit_equals_full_scan_witness :
    severity (scanShards GREEN
      [("0", [sampleCopy "STARTED" true, sampleCopy "UNASSIGNED" false]),
        ("1", [sampleCopy "UNASSIGNED" true, sampleCopy "UNASSIGNED" false])]) = 2 ∧
    fullScan
      [("0", [sampleCopy "STARTED" true, sampleCopy "UNASSIGNED" false]),
        ("1", [sampleCopy "UNASSIGNED" true, sampleCopy "UNASSIGNED" false])] = 2 ∧
    severity (scanCopies GREEN
      [sampleCopy "STARTED" true, sampleCopy "UNASSIGNED" false]).1 = 1 :=
  ⟨(C16_early_exit_equals_full_scan _).1.trans (by decide), by decide, by decide⟩

/-! ## Order of the scan of the type mappings -/

/-- C18, as stated, fails: `snapStrictFalse` and `snapFalseStrict` hold the same
two type mappings, visited in the two possible orders, and the records get the
dynamic values `strict` and `false`. -/
theorem C18_dynamic_depends_on_scan_order :
    (∃ d d', snapStrictFalse.Metadata.Indices.get "idx" = some d ∧
      snapFalseStrict.Metadata.Indices.get "idx" = some d' ∧
      d.Mappings.entries.Perm d'.Mappings.entries ∧
      resolveDynamic d.Mappings.entries = some "strict" ∧
      resolveDynamic d'.Mappings.entries = some "false") ∧
    ∃ m m', indexStateStatusMap snapStrictFalse = some m ∧
      indexStateStatusMap snapFalseStrict = some m' ∧
      ∃ r r', m.get "idx" = some r ∧ m'.get "idx" = some r' ∧
        r.Dynamic = "strict" ∧ r'.Dynamic = "false" ∧ r.Dynamic ≠ r'.Dynamic := by
  refine ⟨⟨_, _, rfl, rfl, ?_, by decide, by decide⟩, _, _, rfl, rfl, _, _, rfl, rfl,
    by decide, by decide, by decide⟩
  exact List.Perm.swap _ _ _

/-- Two rearrangements of a list whose members are all equal start alike. -/
theorem head?_eq_of_perm {α : Type} {l l' : List α} (h : l.Perm l')
    (hall : ∀ a ∈ l, ∀ b ∈ l, a = b) : l.head? = l'.head? := by
  cases l with
  | nil => rw [List.nil_perm.1 h]
  | cons a t =>
    cases l' with
    | nil => exact absurd (List.perm_nil.1 h) (List.cons_ne_nil _ _)
    | cons b t' =>
      have hb : b ∈ a :: t := h.mem_iff.2 (List.mem_cons_self _ _)
      simp only [List.head?_cons, Option.some.injEq]
      exact hall a (List.mem_cons_self _ _) b hb

/-- With at most one distinct non-empty dynamic value, the first one does not
depend on the scanning order. -/
theorem firstDynamic_perm (ms ms' : List (String × mappings)) (h : ms.Perm ms')
    (hone : oneDynamicValue ms) : firstDynamic ms = firstDynamic ms' := by
  unfold firstDynamic
  apply head?_eq_of_perm (h.filterMap _)
  intro a ha b hb
  obtain ⟨t, ht, hta⟩ := List.mem_filterMap.1 ha
  obtain ⟨u, hu, hub⟩ := List.mem_filterMap.1 hb
  exact hone t ht u hu a b hta hub

/-- The four substring tests decide what the block overlay writes. -/
theorem applyBlock_congr (block block' : String) (st : IndexStateStatus)
    (h1 : strings.Contains block READ = strings.Contains block' READ)
    (h2 : strings.Contains block WRITE = strings.Contains block' WRITE)
    (h3 : strings.Contains block METADATA_WRITE = strings.Contains block' METADATA_WRITE)
    (h4 : strings.Contains block METADATA_READ = strings.Contains block' METADATA_READ) :
    applyBlock block st = applyBlock block' st := by
  unfold applyBlock
  rw [h1, h2, h3, h4]

/-- The substring test on the joined level strings does not depend on the
order of the block entries. -/
theorem contains_joined_levels_perm (T : String) (hc : ',' ∉ T.data) (hne : T.data ≠ [])
    (es es' : List (String × blocksDetail)) (h : es.Perm es') :
    strings.Contains (strings.Join (collectLevels es []) ",") T =
      strings.Contains (strings.Join (collectLevels es' []) ",") T := by
  rw [Bool.eq_iff_iff, contains_joined_levels T hc hne, contains_joined_levels T hc hne]
  exact ⟨fun ⟨e, he, hl⟩ => ⟨e, h.mem_iff.1 he, hl⟩, fun ⟨e, he, hl⟩ => ⟨e, h.mem_iff.2 he, hl⟩⟩

/-- The block overlay of a resource does not depend on the order of its block
entries. -/
theorem blockPart_perm (bm bm' : GoMap blocksDetail) (h : bm.entries.Perm bm'.entries)
    (st : IndexStateStatus) : blockPart bm st = blockPart bm' st := by
  unfold blockPart
  have hlen : bm.len = bm'.len := h.length_eq
  rw [hlen]
  by_cases hz : bm'.len ≤ 0
  · rw [if_pos hz, if_pos hz]
  · rw [if_neg hz, if_neg hz]
    exact applyBlock_congr _ _ st
      (contains_joined_levels_perm READ (by decide) (by decide) _ _ h)
      (contains_joined_levels_perm WRITE (by decide) (by decide) _ _ h)
      (contains_joined_levels_perm METADATA_WRITE (by decide) (by decide) _ _ h)
      (contains_joined_levels_perm METADATA_READ (by decide) (by decide) _ _ h)

/-- The routing overlay of a resource does not depend on the order of its
copies. -/
theorem routePart_perm (sh sh' : shards)
    (h : (copies sh.Shards.entries).Perm (copies sh'.Shards.entries))
    (st : IndexStateStatus) : routePart sh st = routePart sh' st := by
  unfold routePart
  rw [scanShards_perm _ _ h]

/-- C18, amended: when the type mappings of a resource carry at most one
distinct dynamic value that is present and a non-empty string, two polls of
snapshots with the same content for that resource, whatever the orders in
which the type mappings, the block entries, the shards and the copies are
visited, build the same record whenever both build a mapping; in particular
the resolved `Dynamic` value is the same. -/
theorem C18_same_record_with_one_dynamic_value (resp resp' : clusterStateResponse)
    (m m' : GoMap IndexStateStatus) (h : indexStateStatusMap resp = some m)
    (h' : indexStateStatusMap resp' = some m') (name : String)
    (hsame : sameContentAt resp resp' name)
    (hone : ∀ d, resp.Metadata.Indices.get name = some d → oneDynamicValue d.Mappings.entries) :
    ∃ r, m.get name = some r ∧ m'.get name = some r := by
  obtain ⟨hcl, ⟨d, d', hd, hd', hst, hset, hmp⟩, hblk, hrt⟩ := hsame
  obtain ⟨dyn, hr, hg⟩ := (indexStateStatusMap_get resp m h name).2 d hd
  obtain ⟨dyn', hr', hg'⟩ := (indexStateStatusMap_get resp' m' h' name).2 d' hd'
  have hdyn : dyn = dyn' := by
    rw [resolveDynamic_eq_firstDynamic _ dyn hr, resolveDynamic_eq_firstDynamic _ dyn' hr',
      firstDynamic_perm _ _ hmp (hone d hd)]
  have hbase : baseRecord resp.ClusterName name d dyn =
      baseRecord resp'.ClusterName name d' dyn' := by
    simp only [baseRecord, hcl, hst, hset, hdyn]
  refine ⟨_, hg, ?_⟩
  rw [hg', hbase]
  congr 1
  unfold overlaid
  rcases hblk with ⟨hb, hb'⟩ | ⟨bm, bm', hb, hb', hbp⟩ <;>
    rcases hrt with ⟨hq, hq'⟩ | ⟨sh, sh', hq, hq', hqp⟩
  · simp only [hb, hb', hq, hq']
  · simp only [hb, hb', hq, hq', routePart_perm sh sh' hqp]
  · simp only [hb, hb', hq, hq', blockPart_perm bm bm' hbp]
  · simp only [hb, hb', hq, hq', blockPart_perm bm bm' hbp, routePart_perm sh sh' hqp]

/-- C18, amended, on `snapDynamicOne` and `snapDynamicReversed`: the same four
type mappings, whose only non-empty dynamic value is `strict`, visited in
opposite orders. -/
theorem C18_same_record_with_one_dynamic_value_witness :
    ∃ m m', indexStateStatusMap snapDynamicOne = some m ∧
      indexStateStatusMap snapDynamicReversed = some m' ∧
      ∃ r, m.get "idx" = some r ∧ m'.get "idx" = some r := by
  obtain ⟨m, hm⟩ : ∃ m, indexStateStatusMap snapDynamicOne = some m := ⟨_, rfl⟩
  obtain ⟨m', hm'⟩ : ∃ m, indexStateStatusMap snapDynamicReversed = some m := ⟨_, rfl⟩
  refine ⟨m, m', hm, hm', C18_same_record_with_one_dynamic_value snapDynamicOne
    snapDynamicReversed m m' hm hm' "idx"
    ⟨rfl, ⟨_, _, rfl, rfl, rfl, rfl, ?_⟩, Or.inl ⟨rfl, rfl⟩, Or.inl ⟨rfl, rfl⟩⟩ ?_⟩
  · exact List.reverse_perm _ |>.symm
  · intro d hd
    have hd2 : d = sampleDetail ⟨[("a", ⟨Iface.nil⟩), ("b", ⟨Iface.str ""⟩),
        ("c", ⟨Iface.str "strict"⟩), ("d", ⟨Iface.str "strict"⟩)], by decide⟩ := by
      have : snapDynamicOne.Metadata.Indices.get "idx" = some (sampleDetail
          ⟨[("a", ⟨Iface.nil⟩), ("b", ⟨Iface.str ""⟩),
            ("c", ⟨Iface.str "strict"⟩), ("d", ⟨Iface.str "strict"⟩)], by decide⟩) := rfl
      rw [this, Option.some.injEq] at hd
      exact hd.symm
    subst hd2
    intro t ht u hu s s' hs hs'
    simp only [sampleDetail, List.mem_cons, List.mem_singleton, List.not_mem_nil,
      or_false] at ht hu
    rcases ht with rfl | rfl | rfl | rfl <;> rcases hu with rfl | rfl | rfl | rfl <;>
      simp_all [presentNonEmpty]

end collector
